import Mathlib

/- Verification development for the deployment launcher `app.py`.

   Covered code: the in-memory run tracker (DeploymentState), docker-compose
   command normalization, base-domain extraction, service-URL substitution,
   secret masking in the dry-run /deploy handler, the pre-command and
   monitoring phases of /deploy/stream, and the /uninstall flow.

   Modelling conventions: Python strings are `String` / `List Char`; Python
   None is `Option.none`; dictionaries that the code treats as records become
   structures; the wall clock and every spawned process are oracles passed in
   as explicit arguments.  Exceptions that the code catches locally are
   modelled by the Option/sum results of those oracles. -/

/-- Whitespace set recognised by Python's default str.strip (ASCII part). -/
def pyIsSpace (c : Char) : Bool :=
  c == ' ' || c == '\t' || c == '\n' || c == '\r' || c == '\x0b' || c == '\x0c'

/-- Python str.strip(): drop whitespace from both ends. -/
def pyStrip (s : List Char) : List Char :=
  ((s.dropWhile pyIsSpace).reverse.dropWhile pyIsSpace).reverse

/-- Python str.replace(pat, rep): replace every leftmost non-overlapping
    occurrence.  Every caller in app.py guards the pattern by a truthiness
    check, so pat is never empty there; for pat = [] this returns s. -/
def replaceAll (s pat rep : List Char) : List Char :=
  if pat ≠ [] ∧ pat.isPrefixOf s then
    rep ++ replaceAll (s.drop pat.length) pat rep
  else
    match s with
    | [] => []
    | c :: rest => c :: replaceAll rest pat rep
termination_by s.length
decreasing_by
  · rename_i h
    have hs : s ≠ [] := by
      intro hnil
      have := List.isPrefixOf_iff_prefix.mp h.2
      rw [hnil] at this
      exact h.1 (List.prefix_nil.mp this)
    have h1 : 0 < pat.length := List.length_pos.mpr h.1
    have h2 : 0 < s.length := List.length_pos.mpr hs
    simp only [List.length_drop]
    omega
  · simp

/-- Python str.replace(pat, rep, 1): replace only the first occurrence. -/
def replaceFirst (pat rep : List Char) : List Char → List Char
  | [] => []
  | c :: rest =>
    if pat.isPrefixOf (c :: rest) then rep ++ (c :: rest).drop pat.length
    else c :: replaceFirst pat rep rest

/-- One log/SSE record.  app.py represents these as small dicts with a
    'type' key and optional 'message' / service fields / 'success'. -/
structure LogEntry where
  type : String
  message : Option String := none
  name : Option String := none
  url : Option String := none
  description : Option String := none
  success : Option Bool := none
deriving DecidableEq, Repr

/-- Shorthand for the ubiquitous two-field record. -/
def logMsg (ty msg : String) : LogEntry :=
  { type := ty, message := some msg }

/-- In-memory run tracker (class DeploymentState, app.py lines 20-60).
    The mutex in the source only serializes the mutations; the embedding
    models the guarded fields.  The wall clock is an abstract Nat. -/
structure DeploymentState where
  is_running : Bool
  started_at : Option Nat
  finished_at : Option Nat
  status : String
  logs : List LogEntry
deriving DecidableEq, Repr

/-- Initial value of the global singleton tracker. -/
def deploymentStateInit : DeploymentState :=
  { is_running := false, started_at := none, finished_at := none,
    status := "idle", logs := [] }

/-- DeploymentState.start (app.py lines 30-36). -/
def DeploymentState.start (s : DeploymentState) (now : Nat) : DeploymentState :=
  { s with is_running := true, started_at := some now, finished_at := none,
           status := "running", logs := [] }

/-- DeploymentState.add_log (app.py lines 38-40). -/
def DeploymentState.add_log (s : DeploymentState) (e : LogEntry) : DeploymentState :=
  { s with logs := s.logs ++ [e] }

/-- DeploymentState.finish (app.py lines 42-46). -/
def DeploymentState.finish (s : DeploymentState) (st : String) (now : Nat) : DeploymentState :=
  { s with is_running := false, finished_at := some now, status := st }

/-- C1: for every prior state of the run tracker (idle, running, or any
    terminal status) and every clock reading, start() leaves the tracker
    with status running, is_running true, finished_at cleared, started_at
    set to the current time, and an empty log sequence. -/
theorem C1_start_resets (s : DeploymentState) (now : Nat) :
    (s.start now).status = "running" ∧
    (s.start now).is_running = true ∧
    (s.start now).finished_at = none ∧
    (s.start now).started_at = some now ∧
    (s.start now).logs = [] :=
  ⟨rfl, rfl, rfl, rfl, rfl⟩

theorem replaceAll_nil (pat rep : List Char) : replaceAll [] pat rep = [] := by
  rw [replaceAll]
  split
  · next h =>
    exfalso
    rcases pat with _ | ⟨a, l⟩
    · exact h.1 rfl
    · simp [List.isPrefixOf] at h
  · rfl

theorem replaceAll_pos {pat s : List Char} (rep : List Char)
    (h1 : pat ≠ []) (h2 : pat.isPrefixOf s) :
    replaceAll s pat rep = rep ++ replaceAll (s.drop pat.length) pat rep := by
  rw [replaceAll.eq_def, if_pos ⟨h1, h2⟩]

theorem replaceAll_neg {pat : List Char} (rep : List Char) {c : Char} {rest : List Char}
    (h : ¬(pat ≠ [] ∧ pat.isPrefixOf (c :: rest))) :
    replaceAll (c :: rest) pat rep = c :: replaceAll rest pat rep := by
  rw [replaceAll.eq_def, if_neg h]

/-- An infix of rep ++ t whose characters all avoid rep's characters must be
    an infix of t. -/
theorem infix_of_append_of_disjoint {sec t : List Char} (rep : List Char)
    (hsec : sec ≠ []) (hdisj : ∀ c ∈ rep, c ∉ sec)
    (h : sec <:+: rep ++ t) : sec <:+: t := by
  induction rep with
  | nil => simpa using h
  | cons r0 rep' ih =>
    rw [List.cons_append] at h
    rcases List.infix_cons_iff.mp h with h1 | h1
    · exfalso
      rcases sec with _ | ⟨s0, sec'⟩
      · exact hsec rfl
      · have : s0 = r0 := (List.cons_prefix_cons.mp h1).1
        exact hdisj r0 (List.mem_cons_self r0 rep') (this ▸ List.mem_cons_self s0 sec')
    · exact ih (fun c hc => hdisj c (List.mem_cons_of_mem r0 hc)) h1

/-- Prefix transfer: a prefix of replaceAll s pat rep that avoids rep's
    characters is already a prefix of s. -/
theorem replaceAll_prefix_transfer (pat rep : List Char) (hrep : rep ≠ []) :
    ∀ s p : List Char, (∀ c ∈ rep, c ∉ p) → p <+: replaceAll s pat rep → p <+: s := by
  suffices h : ∀ n (s p : List Char), s.length ≤ n → (∀ c ∈ rep, c ∉ p) →
      p <+: replaceAll s pat rep → p <+: s by
    exact fun s p => h s.length s p le_rfl
  intro n
  induction n with
  | zero =>
    intro s p hs hdisj hp
    have : s = [] := List.eq_nil_of_length_eq_zero (Nat.le_zero.mp hs)
    subst this
    rwa [replaceAll_nil] at hp
  | succ n ih =>
    intro s p hs hdisj hp
    rcases s with _ | ⟨c, rest⟩
    · rwa [replaceAll_nil] at hp
    by_cases hc : pat ≠ [] ∧ pat.isPrefixOf (c :: rest)
    · rw [replaceAll_pos rep hc.1 hc.2] at hp
      rcases p with _ | ⟨p0, p'⟩
      · exact List.nil_prefix
      · exfalso
        rcases rep with _ | ⟨r0, rep'⟩
        · exact hrep rfl
        · rw [List.cons_append] at hp
          have : p0 = r0 := (List.cons_prefix_cons.mp hp).1
          exact hdisj r0 (List.mem_cons_self r0 rep') (this ▸ List.mem_cons_self p0 p')
    · rw [replaceAll_neg rep hc] at hp
      rcases p with _ | ⟨p0, p'⟩
      · exact List.nil_prefix
      · have h1 := List.cons_prefix_cons.mp hp
        have hlen : rest.length ≤ n := by
          have := hs; simp only [List.length_cons] at this; omega
        have hdisj' : ∀ x ∈ rep, x ∉ p' :=
          fun x hx hmem => hdisj x hx (List.mem_cons_of_mem p0 hmem)
        have : p' <+: rest := ih rest p' hlen hdisj' h1.2
        rw [h1.1]
        exact List.cons_prefix_cons.mpr ⟨rfl, this⟩

/-- Freeness preservation: replacing any pattern by a replacement whose
    characters avoid sec cannot introduce an occurrence of sec. -/
theorem replaceAll_infix_free (pat rep sec : List Char) (hrep : rep ≠ [])
    (hsec : sec ≠ []) (hdisj : ∀ c ∈ rep, c ∉ sec) :
    ∀ s, ¬ sec <:+: s → ¬ sec <:+: replaceAll s pat rep := by
  suffices h : ∀ n (s : List Char), s.length ≤ n → ¬ sec <:+: s →
      ¬ sec <:+: replaceAll s pat rep by
    exact fun s => h s.length s le_rfl
  intro n
  induction n with
  | zero =>
    intro s hs hfree
    have : s = [] := List.eq_nil_of_length_eq_zero (Nat.le_zero.mp hs)
    subst this
    rwa [replaceAll_nil]
  | succ n ih =>
    intro s hs hfree
    rcases s with _ | ⟨c, rest⟩
    · rwa [replaceAll_nil]
    by_cases hc : pat ≠ [] ∧ pat.isPrefixOf (c :: rest)
    · rw [replaceAll_pos rep hc.1 hc.2]
      intro hinf
      have h2 : sec <:+: replaceAll ((c :: rest).drop pat.length) pat rep :=
        infix_of_append_of_disjoint rep hsec hdisj hinf
      have hlen : ((c :: rest).drop pat.length).length ≤ n := by
        have hplen : 0 < pat.length := List.length_pos.mpr hc.1
        simp only [List.length_drop, List.length_cons]
        simp only [List.length_cons] at hs
        omega
      have hfree' : ¬ sec <:+: (c :: rest).drop pat.length := fun hx =>
        hfree (hx.trans (List.drop_suffix pat.length (c :: rest)).isInfix)
      exact ih _ hlen hfree' h2
    · rw [replaceAll_neg rep hc]
      intro hinf
      rcases List.infix_cons_iff.mp hinf with h1 | h1
      · rcases sec with _ | ⟨s0, sec'⟩
        · exact hsec rfl
        · have h2 := List.cons_prefix_cons.mp h1
          have hdisj' : ∀ x ∈ rep, x ∉ sec' :=
            fun x hx hmem => hdisj x hx (List.mem_cons_of_mem s0 hmem)
          have h3 : sec' <+: rest :=
            replaceAll_prefix_transfer pat rep hrep rest sec' hdisj' h2.2
          exact hfree ((List.cons_prefix_cons.mpr ⟨h2.1, h3⟩).isInfix)
      · have hfree' : ¬ sec <:+: rest := fun hx =>
          hfree (hx.trans (List.tail_suffix (c :: rest)).isInfix)
        have hlen : rest.length ≤ n := by
          simp only [List.length_cons] at hs; omega
        exact ih rest hlen hfree' h1

/-- Self-masking: after replacing sec itself by a replacement whose
    characters avoid sec, no occurrence of sec remains. -/
theorem replaceAll_self_free (rep sec : List Char) (hrep : rep ≠ [])
    (hsec : sec ≠ []) (hdisj : ∀ c ∈ rep, c ∉ sec) :
    ∀ s, ¬ sec <:+: replaceAll s sec rep := by
  suffices h : ∀ n (s : List Char), s.length ≤ n → ¬ sec <:+: replaceAll s sec rep by
    exact fun s => h s.length s le_rfl
  intro n
  induction n with
  | zero =>
    intro s hs
    have : s = [] := List.eq_nil_of_length_eq_zero (Nat.le_zero.mp hs)
    subst this
    rw [replaceAll_nil]
    intro hx
    exact hsec (List.eq_nil_of_infix_nil hx)
  | succ n ih =>
    intro s hs
    rcases s with _ | ⟨c, rest⟩
    · rw [replaceAll_nil]
      intro hx
      exact hsec (List.eq_nil_of_infix_nil hx)
    by_cases hc : sec ≠ [] ∧ sec.isPrefixOf (c :: rest)
    · rw [replaceAll_pos rep hc.1 hc.2]
      intro hinf
      have h2 := infix_of_append_of_disjoint rep hsec hdisj hinf
      have hlen : ((c :: rest).drop sec.length).length ≤ n := by
        have hplen : 0 < sec.length := List.length_pos.mpr hc.1
        simp only [List.length_drop, List.length_cons]
        simp only [List.length_cons] at hs
        omega
      exact ih _ hlen h2
    · rw [replaceAll_neg rep hc]
      intro hinf
      rcases List.infix_cons_iff.mp hinf with h1 | h1
      · rcases sec with _ | ⟨s0, sec'⟩
        · exact hsec rfl
        · have h2 := List.cons_prefix_cons.mp h1
          have hdisj' : ∀ x ∈ rep, x ∉ sec' :=
            fun x hx hmem => hdisj x hx (List.mem_cons_of_mem s0 hmem)
          have h3 : sec' <+: rest :=
            replaceAll_prefix_transfer (s0 :: sec') rep hrep rest sec' hdisj' h2.2
          have h4 : (s0 :: sec').isPrefixOf (c :: rest) := by
            rw [List.isPrefixOf_iff_prefix]
            exact List.cons_prefix_cons.mpr ⟨h2.1, h3⟩
          exact hc ⟨List.cons_ne_nil s0 sec', h4⟩
      · have hlen : rest.length ≤ n := by
          simp only [List.length_cons] at hs; omega
        exact ih rest hlen h1

theorem replaceAll_append_skip (p0 : Char) (pat' rep : List Char) :
    ∀ piece s : List Char, p0 ∉ piece →
      replaceAll (piece ++ s) (p0 :: pat') rep = piece ++ replaceAll s (p0 :: pat') rep := by
  intro piece
  induction piece with
  | nil => intro s _; simp
  | cons c cs ih =>
    intro s hni
    have hc : ¬ (p0 = c) := fun h => hni (by rw [h]; exact List.mem_cons_self c cs)
    have hpre : ¬((p0 :: pat') ≠ [] ∧ (p0 :: pat').isPrefixOf (c :: (cs ++ s))) := by
      intro hcon
      exact hc (List.cons_prefix_cons.mp (List.isPrefixOf_iff_prefix.mp hcon.2)).1
    rw [List.cons_append, replaceAll_neg rep hpre,
        ih s (fun hm => hni (List.mem_cons_of_mem c hm)), List.cons_append]

theorem replaceAll_append_match (pat rep : List Char) (h : pat ≠ []) (s : List Char) :
    replaceAll (pat ++ s) pat rep = rep ++ replaceAll s pat rep := by
  rw [replaceAll_pos rep h
    (by rw [List.isPrefixOf_iff_prefix]; exact List.prefix_append pat s), List.drop_left]

theorem replaceAll_id_of_no_head (p0 : Char) (pat' rep piece : List Char)
    (h : p0 ∉ piece) : replaceAll piece (p0 :: pat') rep = piece := by
  have := replaceAll_append_skip p0 pat' rep piece [] h
  simpa [replaceAll_nil] using this

theorem replaceFirst_nil (pat rep : List Char) : replaceFirst pat rep [] = [] := rfl

theorem replaceFirst_cons (pat rep : List Char) (c : Char) (rest : List Char) :
    replaceFirst pat rep (c :: rest) =
      if pat.isPrefixOf (c :: rest) then rep ++ (c :: rest).drop pat.length
      else c :: replaceFirst pat rep rest := rfl

theorem replaceFirst_match (pat rep s : List Char) (h : pat ≠ []) :
    replaceFirst pat rep (pat ++ s) = rep ++ s := by
  rcases pat with _ | ⟨q0, qat⟩
  · exact absurd rfl h
  · rw [List.cons_append, replaceFirst_cons,
        if_pos (by rw [List.isPrefixOf_iff_prefix]; rw [← List.cons_append];
                   exact List.prefix_append (q0 :: qat) s)]
    rw [← List.cons_append, List.drop_left]

theorem replaceFirst_skip_space (rep : List Char) (p0 : Char) (pat' : List Char)
    (hp0 : pyIsSpace p0 = false) :
    ∀ ws s : List Char, (∀ c ∈ ws, pyIsSpace c = true) →
      replaceFirst (p0 :: pat') rep (ws ++ s) = ws ++ replaceFirst (p0 :: pat') rep s := by
  intro ws
  induction ws with
  | nil => intro s _; simp
  | cons c cs ih =>
    intro s hws
    have hpre : ¬ ((p0 :: pat').isPrefixOf (c :: (cs ++ s)) = true) := by
      intro hcon
      have : p0 = c := (List.cons_prefix_cons.mp (List.isPrefixOf_iff_prefix.mp hcon)).1
      rw [this] at hp0
      rw [hws c (List.mem_cons_self c cs)] at hp0
      exact absurd hp0 (by decide)
    rw [List.cons_append, replaceFirst_cons, if_neg hpre,
        ih s (fun x hx => hws x (List.mem_cons_of_mem c hx)), List.cons_append]

/-- Python str.rstrip(): drop whitespace from the right end. -/
def pyRStrip (s : List Char) : List Char :=
  (s.reverse.dropWhile pyIsSpace).reverse

theorem pyStrip_eq_rstrip (s : List Char) :
    pyStrip s = pyRStrip (s.dropWhile pyIsSpace) := rfl

theorem dropWhile_append_of_all (p : Char → Bool) (ws t : List Char)
    (h : ∀ c ∈ ws, p c = true) : (ws ++ t).dropWhile p = t.dropWhile p := by
  rw [List.dropWhile_append]
  have hnil : ws.dropWhile p = [] := by
    rw [List.dropWhile_eq_nil_iff]
    intro x hx
    exact h x hx
  simp [hnil]

theorem pyRStrip_append (d rest : List Char) (e : Char) (es : List Char)
    (hd : d.reverse = e :: es) (he : pyIsSpace e = false) :
    pyRStrip (d ++ rest) = d ++ pyRStrip rest := by
  unfold pyRStrip
  rw [List.reverse_append, List.dropWhile_append]
  by_cases hcase : (rest.reverse.dropWhile pyIsSpace).isEmpty
  · rw [if_pos hcase]
    have hempty : rest.reverse.dropWhile pyIsSpace = [] := by
      simpa [List.isEmpty_iff] using hcase
    rw [hd, List.dropWhile_cons, he, hempty]
    simp [← hd]
  · rw [if_neg hcase, List.reverse_append]
    simp

theorem pyStrip_ws_append (ws rest : List Char) (d0 e : Char) (ds es : List Char)
    (hws : ∀ c ∈ ws, pyIsSpace c = true) (hd0 : pyIsSpace d0 = false)
    (hrev : (d0 :: ds).reverse = e :: es) (he : pyIsSpace e = false) :
    pyStrip (ws ++ (d0 :: ds) ++ rest) = (d0 :: ds) ++ pyRStrip rest := by
  rw [pyStrip_eq_rstrip, List.append_assoc, dropWhile_append_of_all _ ws _ hws,
      List.cons_append, List.dropWhile_cons, hd0]
  exact pyRStrip_append (d0 :: ds) rest e es hrev he

/-- Literal invocation FormB recognised at the head of a command. -/
def dcDash : List Char := "docker-compose".toList

/-- Literal invocation FormA recognised at the head of a command. -/
def dcSpace : List Char := "docker compose".toList

/-- normalize_docker_compose_command (app.py lines 328-345).  The result of
    get_docker_compose_command (a probe of the host system, app.py lines
    293-326) enters as the compose_cmd oracle: some detected form, or none
    when neither invocation responds. -/
def normalize_docker_compose_command (compose_cmd : Option (List Char))
    (command : List Char) : List Char :=
  match compose_cmd with
  | none => command
  | some cc =>
    if dcDash.isPrefixOf (pyStrip command) then replaceFirst dcDash cc command
    else if dcSpace.isPrefixOf (pyStrip command) then replaceFirst dcSpace cc command
    else command

/-- C7: with no compose form detected, normalize is the identity; when the
    command after trimming leading whitespace starts with the literal
    docker-compose or docker compose, exactly the leading occurrence is
    replaced by the detected form and both the leading whitespace and the
    remainder are unchanged; any other command is returned unchanged. -/
theorem C7_normalize_docker_compose (cc : List Char) :
    (∀ cmd, normalize_docker_compose_command none cmd = cmd) ∧
    (∀ ws rest : List Char, (∀ c ∈ ws, pyIsSpace c = true) →
      normalize_docker_compose_command (some cc) (ws ++ dcDash ++ rest) =
        ws ++ cc ++ rest) ∧
    (∀ ws rest : List Char, (∀ c ∈ ws, pyIsSpace c = true) →
      normalize_docker_compose_command (some cc) (ws ++ dcSpace ++ rest) =
        ws ++ cc ++ rest) ∧
    (∀ cmd, ¬ dcDash.isPrefixOf (pyStrip cmd) = true →
      ¬ dcSpace.isPrefixOf (pyStrip cmd) = true →
      normalize_docker_compose_command (some cc) cmd = cmd) := by
  refine ⟨fun cmd => rfl, ?_, ?_, ?_⟩
  · intro ws rest hws
    have hd : dcDash = 'd' :: "ocker-compose".toList := rfl
    have hstrip := pyStrip_ws_append ws rest 'd' 'e'
      ("ocker-compose".toList) ("sopmoc-rekcod".toList) hws
      (by decide) (by decide) (by decide)
    simp only [normalize_docker_compose_command]
    rw [hd]
    rw [hstrip, if_pos (List.isPrefixOf_iff_prefix.mpr (List.prefix_append _ _))]
    rw [List.append_assoc]
    rw [replaceFirst_skip_space cc 'd' ("ocker-compose".toList) (by decide) ws _ hws]
    rw [replaceFirst_match _ cc rest (List.cons_ne_nil _ _), List.append_assoc]
  · intro ws rest hws
    have hd : dcSpace = 'd' :: "ocker compose".toList := rfl
    have hstrip := pyStrip_ws_append ws rest 'd' 'e'
      ("ocker compose".toList) ("esopmoc rekcod".toList.drop 1) hws
      (by decide) (by decide) (by decide)
    simp only [normalize_docker_compose_command]
    rw [hd]
    rw [hstrip]
    have hne : ¬ (dcDash.isPrefixOf (('d' :: "ocker compose".toList) ++ pyRStrip rest) = true) := by
      intro hcon
      have h1 := List.isPrefixOf_iff_prefix.mp hcon
      have h2 : ('d' :: "ocker compose".toList) <+:
          ('d' :: "ocker compose".toList) ++ pyRStrip rest := List.prefix_append _ _
      have hlen : dcDash.length = ('d' :: "ocker compose".toList).length := by decide
      rcases List.prefix_or_prefix_of_prefix h1 h2 with h3 | h3
      · exact absurd (h3.eq_of_length hlen) (by decide)
      · exact absurd (h3.eq_of_length hlen.symm) (by decide)
    rw [if_neg hne, if_pos (List.isPrefixOf_iff_prefix.mpr (List.prefix_append _ _))]
    rw [List.append_assoc]
    rw [replaceFirst_skip_space cc 'd' ("ocker compose".toList) (by decide) ws _ hws]
    rw [replaceFirst_match _ cc rest (List.cons_ne_nil _ _), List.append_assoc]
  · intro cmd h1 h2
    simp only [normalize_docker_compose_command]
    rw [if_neg h1, if_neg h2]

/-- Witness for C7: the spec's example, docker-compose rewritten to the
    detected alternate form with the remainder unchanged. -/
theorem C7_witness :
    normalize_docker_compose_command (some dcSpace)
        (([] : List Char) ++ dcDash ++ " up -d".toList) =
      ([] : List Char) ++ dcSpace ++ " up -d".toList :=
  (C7_normalize_docker_compose dcSpace).2.1 [] (" up -d".toList)
    (fun c hc => absurd hc (List.not_mem_nil c))

theorem takeWhile_append_of_all (p : Char → Bool) :
    ∀ (b t : List Char), (∀ c ∈ b, p c = true) →
      (b ++ t).takeWhile p = b ++ t.takeWhile p := by
  intro b
  induction b with
  | nil => intro t _; simp
  | cons a bs ih =>
    intro t hall
    rw [List.cons_append, List.takeWhile_cons, hall a (List.mem_cons_self a bs),
        if_pos rfl, ih t (fun c hc => hall c (List.mem_cons_of_mem a hc)), List.cons_append]

theorem dropWhile_head_not (q : Char → Bool) :
    ∀ (l : List Char) (r0 : Char) (rem' : List Char),
      l.dropWhile q = r0 :: rem' → q r0 = false := by
  intro l
  induction l with
  | nil => intro r0 rem' h; simp at h
  | cons a t ih =>
    intro r0 rem' h
    rw [List.dropWhile_cons] at h
    by_cases ha : q a = true
    · rw [if_pos ha] at h; exact ih r0 rem' h
    · rw [if_neg ha] at h
      cases h
      simpa using ha

/-- Match of the regex tail -[^.]+\..+ (anchored at end of string) tried at
    a single position: a hyphen, at least one non-dot character, a dot, and
    at least one further character.  The newline subtleties of Python's '.'
    and '$' are not modelled; Host headers carry no newline. -/
def tailMatch : List Char → Bool
  | [] => false
  | x :: rest =>
    x == '-' && !(rest.takeWhile (fun c => c != '.')).isEmpty &&
      decide (2 ≤ (rest.dropWhile (fun c => c != '.')).length)

/-- re.search over the hostname: try the tail pattern at each position,
    leftmost first; group 1 spans from the hyphen to the end of the string. -/
def searchTail : List Char → Option (List Char)
  | [] => none
  | c :: rest => if tailMatch (c :: rest) then some (c :: rest) else searchTail rest

/-- extract_base_domain (app.py lines 171-196): empty/None header yields
    None; otherwise strip an optional port suffix with split(':')[0] and
    search for the regex (-[^.]+\..+)$. -/
def extract_base_domain (host_header : Option (List Char)) : Option (List Char) :=
  match host_header with
  | none => none
  | some h =>
    if h = [] then none
    else searchTail (h.takeWhile (fun c => c != ':'))

/-- Position i of the hostname starts a hyphen followed by at least one
    non-dot character, then a dot, then at least one further character
    running to the end of the hostname. -/
def ValidHyphen (host : List Char) (i : Nat) : Prop :=
  ∃ b c : List Char,
    host.drop i = '-' :: (b ++ '.' :: c) ∧ b ≠ [] ∧ ('.') ∉ b ∧ c ≠ []

theorem tailMatch_iff (s : List Char) :
    tailMatch s = true ↔
      ∃ b c : List Char, s = '-' :: (b ++ '.' :: c) ∧ b ≠ [] ∧ ('.') ∉ b ∧ c ≠ [] := by
  cases s with
  | nil =>
    constructor
    · intro h; exact absurd h (by simp [tailMatch])
    · rintro ⟨b, c, hd, -, -, -⟩; exact absurd hd (by simp)
  | cons x rest =>
    constructor
    · intro h
      simp only [tailMatch, Bool.and_eq_true, beq_iff_eq, Bool.not_eq_true',
        decide_eq_true_eq] at h
      obtain ⟨⟨hx, hne⟩, hlen⟩ := h
      have hbne : rest.takeWhile (fun c => c != '.') ≠ [] := by
        intro hnil; rw [hnil] at hne; simp at hne
      have hsplit := List.takeWhile_append_dropWhile (p := fun c => c != '.') (l := rest)
      rcases hrem : rest.dropWhile (fun c => c != '.') with _ | ⟨r0, rem'⟩
      · rw [hrem] at hlen; simp at hlen
      · have hr0 : (r0 != '.') = false := dropWhile_head_not _ rest r0 rem' hrem
        have hr0' : r0 = '.' := by simpa using hr0
        refine ⟨rest.takeWhile (fun c => c != '.'), rem', ?_, hbne, ?_, ?_⟩
        · rw [hx]
          have hr : rest = rest.takeWhile (fun c => c != '.') ++ '.' :: rem' := by
            conv_lhs => rw [← hsplit]
            rw [hrem, hr0']
          conv_lhs => rw [hr]
        · intro hdot
          have := List.mem_takeWhile_imp hdot
          simp at this
        · rw [hrem] at hlen
          intro hnil
          rw [hnil] at hlen
          simp at hlen
    · rintro ⟨b, c, hd, hb, hdot, hc⟩
      obtain ⟨hx, hrest⟩ : x = '-' ∧ rest = b ++ '.' :: c := by
        cases hd; exact ⟨rfl, rfl⟩
      have hball : ∀ ch ∈ b, (ch != '.') = true := by
        intro ch hch
        have : ch ≠ '.' := fun he => hdot (he ▸ hch)
        simpa using this
      have htake : rest.takeWhile (fun cc => cc != '.') = b := by
        rw [hrest, takeWhile_append_of_all _ b _ hball, List.takeWhile_cons]
        simp
      have hdrop : rest.dropWhile (fun cc => cc != '.') = '.' :: c := by
        rw [hrest, dropWhile_append_of_all _ b _ hball, List.dropWhile_cons]
        simp
      simp only [tailMatch, Bool.and_eq_true, beq_iff_eq, Bool.not_eq_true',
        decide_eq_true_eq]
      refine ⟨⟨hx, ?_⟩, ?_⟩
      · rw [htake]
        simpa [List.isEmpty_iff] using hb
      · rw [hdrop]
        have := List.length_pos.mpr hc
        simp only [List.length_cons]
        omega

theorem searchTail_cons (c : Char) (rest : List Char) :
    searchTail (c :: rest) =
      if tailMatch (c :: rest) then some (c :: rest) else searchTail rest := rfl

theorem searchTail_some_iff :
    ∀ (host t : List Char), searchTail host = some t ↔
      ∃ i, ValidHyphen host i ∧ (∀ j, j < i → ¬ ValidHyphen host j) ∧
        t = host.drop i := by
  intro host
  induction host with
  | nil =>
    intro t
    constructor
    · intro h; exact absurd h (by simp [searchTail])
    · rintro ⟨i, ⟨b, c, hd, -, -, -⟩, -, -⟩
      rw [List.drop_nil] at hd
      exact absurd hd (by simp)
  | cons x rest ih =>
    intro t
    have hv0 : ValidHyphen (x :: rest) 0 ↔ tailMatch (x :: rest) = true := by
      unfold ValidHyphen
      rw [List.drop_zero]
      exact (tailMatch_iff (x :: rest)).symm
    have hvs : ∀ i, ValidHyphen (x :: rest) (i + 1) ↔ ValidHyphen rest i := by
      intro i; unfold ValidHyphen; rw [List.drop_succ_cons]
    by_cases hm : tailMatch (x :: rest) = true
    · rw [searchTail_cons, if_pos hm]
      constructor
      · intro h
        have h2 : t = x :: rest := (Option.some.inj h).symm
        refine ⟨0, hv0.mpr hm, fun j hj => absurd hj (by omega), by rw [h2]; rfl⟩
      · rintro ⟨i, hvi, hmin, ht⟩
        cases i with
        | zero => rw [ht]; rfl
        | succ i' => exact absurd (hv0.mpr hm) (hmin 0 (Nat.succ_pos i'))
    · rw [searchTail_cons, if_neg hm, ih t]
      constructor
      · rintro ⟨i, hvi, hmin, ht⟩
        refine ⟨i + 1, (hvs i).mpr hvi, ?_, ?_⟩
        · intro j hj
          cases j with
          | zero => exact fun hvj => hm (hv0.mp hvj)
          | succ j' => exact fun hvj => hmin j' (by omega) ((hvs j').mp hvj)
        · rw [ht, List.drop_succ_cons]
      · rintro ⟨i, hvi, hmin, ht⟩
        cases i with
        | zero => exact absurd (hv0.mp hvi) hm
        | succ i' =>
          refine ⟨i', (hvs i').mp hvi, ?_, ?_⟩
          · intro j hj hvj; exact hmin (j + 1) (by omega) ((hvs j).mpr hvj)
          · rw [ht, List.drop_succ_cons]

/-- C8 counterexample: the host a-b contains a hyphen, so the suffix
    starting at its first hyphen exists and is -b, yet the code returns
    absent (the hyphen is not followed by a dot-separated tail). -/
theorem C8_counterexample :
    extract_base_domain (some ("a-b".toList)) = none ∧
    extract_base_domain (some ("a-b".toList)) ≠ some ("-b".toList) := by
  constructor
  · decide
  · decide

/-- C8 (amended): extract_base_domain strips any port suffix and returns
    the suffix of the remaining hostname starting at the first hyphen that
    is followed by at least one non-dot character, then a dot, then at
    least one further character; it returns absent when no hyphen has that
    shape, even when the hostname does contain a hyphen.  Both concrete
    examples of the claim hold. -/
theorem C8_extract_base_domain :
    (∀ h t : List Char,
      extract_base_domain (some h) = some t ↔
        h ≠ [] ∧ ∃ i, ValidHyphen (h.takeWhile (fun c => c != ':')) i ∧
          (∀ j, j < i → ¬ ValidHyphen (h.takeWhile (fun c => c != ':')) j) ∧
          t = (h.takeWhile (fun c => c != ':')).drop i) ∧
    extract_base_domain (some ("studio-abc123.example.com:443".toList)) =
      some ("-abc123.example.com".toList) ∧
    extract_base_domain (some ("nohyphenhost.example.com".toList)) = none := by
  refine ⟨?_, by decide, by decide⟩
  intro h t
  by_cases hnil : h = []
  · subst hnil
    constructor
    · intro hcon; exact absurd hcon (by simp [extract_base_domain])
    · rintro ⟨hne, -⟩; exact absurd rfl hne
  · rw [show extract_base_domain (some h) =
        searchTail (h.takeWhile (fun c => c != ':')) from by
      simp [extract_base_domain, hnil]]
    rw [searchTail_some_iff]
    constructor
    · intro hh; exact ⟨hnil, hh⟩
    · rintro ⟨-, hh⟩; exact hh

/-- The host-IP placeholder token of service URL templates. -/
def hostTok : List Char := "${HOST_IP}".toList

/-- The base-domain placeholder token of service URL templates. -/
def baseTok : List Char := "${BASE_DOMAIN}".toList

theorem hostTok_not_at_baseTok (rest : List Char) :
    ¬ hostTok.isPrefixOf (baseTok ++ rest) = true := by
  intro h
  have h1 := List.isPrefixOf_iff_prefix.mp h
  rcases List.prefix_or_prefix_of_prefix h1 (List.prefix_append baseTok rest) with h2 | h2
  · exact absurd h2 (by decide)
  · exact absurd h2.length_le (by decide)

theorem baseTok_not_at_hostTok (rest : List Char) :
    ¬ baseTok.isPrefixOf (hostTok ++ rest) = true := by
  intro h
  have h1 := List.isPrefixOf_iff_prefix.mp h
  rcases List.prefix_or_prefix_of_prefix h1 (List.prefix_append hostTok rest) with h2 | h2
  · exact absurd h2.length_le (by decide)
  · exact absurd h2 (by decide)

theorem replaceAll_hostTok_lit (v p s : List Char) (hp : '$' ∉ p) :
    replaceAll (p ++ s) hostTok v = p ++ replaceAll s hostTok v :=
  replaceAll_append_skip '$' ("{HOST_IP}".toList) v p s hp

theorem replaceAll_baseTok_lit (w p s : List Char) (hp : '$' ∉ p) :
    replaceAll (p ++ s) baseTok w = p ++ replaceAll s baseTok w :=
  replaceAll_append_skip '$' ("{BASE_DOMAIN}".toList) w p s hp

theorem replaceAll_hostTok_self (v s : List Char) :
    replaceAll (hostTok ++ s) hostTok v = v ++ replaceAll s hostTok v :=
  replaceAll_append_match hostTok v (by decide) s

theorem replaceAll_baseTok_self (w s : List Char) :
    replaceAll (baseTok ++ s) baseTok w = w ++ replaceAll s baseTok w :=
  replaceAll_append_match baseTok w (by decide) s

theorem replaceAll_hostTok_at_baseTok (v s : List Char) :
    replaceAll (baseTok ++ s) hostTok v = baseTok ++ replaceAll s hostTok v := by
  have h0 : ¬ (hostTok ≠ [] ∧ hostTok.isPrefixOf ('$' :: ("{BASE_DOMAIN}".toList ++ s))) := by
    intro hcon
    exact hostTok_not_at_baseTok s hcon.2
  show replaceAll ('$' :: ("{BASE_DOMAIN}".toList ++ s)) hostTok v = _
  rw [replaceAll_neg v h0]
  have hskip : replaceAll ("{BASE_DOMAIN}".toList ++ s) hostTok v
      = "{BASE_DOMAIN}".toList ++ replaceAll s hostTok v :=
    replaceAll_append_skip '$' ("{HOST_IP}".toList) v ("{BASE_DOMAIN}".toList) s (by decide)
  rw [hskip]
  rfl

theorem replaceAll_baseTok_at_hostTok (w s : List Char) :
    replaceAll (hostTok ++ s) baseTok w = hostTok ++ replaceAll s baseTok w := by
  have h0 : ¬ (baseTok ≠ [] ∧ baseTok.isPrefixOf ('$' :: ("{HOST_IP}".toList ++ s))) := by
    intro hcon
    exact baseTok_not_at_hostTok s hcon.2
  show replaceAll ('$' :: ("{HOST_IP}".toList ++ s)) baseTok w = _
  rw [replaceAll_neg w h0]
  have hskip : replaceAll ("{HOST_IP}".toList ++ s) baseTok w
      = "{HOST_IP}".toList ++ replaceAll s baseTok w :=
    replaceAll_append_skip '$' ("{BASE_DOMAIN}".toList) w ("{HOST_IP}".toList) s (by decide)
  rw [hskip]
  rfl

/-- Building blocks of a URL template, as the spec describes it: literal
    text free of the placeholder marker, or one of the two tokens. -/
inductive Seg where
  | lit : List Char → Seg
  | tokHost : Seg
  | tokBase : Seg

/-- Plain rendering of a template. -/
def render : List Seg → List Char
  | [] => []
  | Seg.lit p :: rest => p ++ render rest
  | Seg.tokHost :: rest => hostTok ++ render rest
  | Seg.tokBase :: rest => baseTok ++ render rest

/-- Rendering with each token replaced by the supplied value when present
    and left as the literal token when absent. -/
def renderWith (hip bd : Option (List Char)) : List Seg → List Char
  | [] => []
  | Seg.lit p :: rest => p ++ renderWith hip bd rest
  | Seg.tokHost :: rest => hip.getD hostTok ++ renderWith hip bd rest
  | Seg.tokBase :: rest => bd.getD baseTok ++ renderWith hip bd rest

/-- Templates whose literal pieces avoid the placeholder marker. -/
def LitsOk (segs : List Seg) : Prop :=
  ∀ p, Seg.lit p ∈ segs → '$' ∉ p

theorem render_eq_renderWith (segs : List Seg) :
    render segs = renderWith none none segs := by
  induction segs with
  | nil => rfl
  | cons s rest ih => cases s <;> simp [render, renderWith, ih]

theorem subst_pass_host (v : List Char) :
    ∀ segs : List Seg, LitsOk segs →
      replaceAll (renderWith none none segs) hostTok v =
        renderWith (some v) none segs := by
  intro segs
  induction segs with
  | nil => intro _; simp [renderWith, replaceAll_nil]
  | cons s rest ih =>
    intro hok
    have hok' : LitsOk rest := fun q hq => hok q (List.mem_cons_of_mem _ hq)
    cases s with
    | lit p =>
      have hp : '$' ∉ p := hok p (List.mem_cons_self _ _)
      show replaceAll (p ++ renderWith none none rest) hostTok v = p ++ _
      rw [replaceAll_hostTok_lit v p _ hp, ih hok']
    | tokHost =>
      show replaceAll (hostTok ++ renderWith none none rest) hostTok v = v ++ _
      rw [replaceAll_hostTok_self, ih hok']
    | tokBase =>
      show replaceAll (baseTok ++ renderWith none none rest) hostTok v = baseTok ++ _
      rw [replaceAll_hostTok_at_baseTok, ih hok']

theorem subst_pass_base (w : List Char) (hip : Option (List Char))
    (hipok : ∀ v, hip = some v → '$' ∉ v) :
    ∀ segs : List Seg, LitsOk segs →
      replaceAll (renderWith hip none segs) baseTok w =
        renderWith hip (some w) segs := by
  intro segs
  induction segs with
  | nil => intro _; simp [renderWith, replaceAll_nil]
  | cons s rest ih =>
    intro hok
    have hok' : LitsOk rest := fun q hq => hok q (List.mem_cons_of_mem _ hq)
    cases s with
    | lit p =>
      have hp : '$' ∉ p := hok p (List.mem_cons_self _ _)
      show replaceAll (p ++ renderWith hip none rest) baseTok w = p ++ _
      rw [replaceAll_baseTok_lit w p _ hp, ih hok']
    | tokHost =>
      rcases hhip : hip with _ | v
      · show replaceAll (hostTok ++ renderWith none none rest) baseTok w = hostTok ++ _
        rw [replaceAll_baseTok_at_hostTok]
        rw [hhip] at ih
        rw [ih hok']
      · have hv : '$' ∉ v := hipok v hhip
        show replaceAll (v ++ renderWith (some v) none rest) baseTok w = v ++ _
        rw [replaceAll_baseTok_lit w v _ hv]
        rw [hhip] at ih
        rw [ih hok']
    | tokBase =>
      show replaceAll (baseTok ++ renderWith hip none rest) baseTok w = w ++ _
      rw [replaceAll_baseTok_self, ih hok']

/-- One configured service entry (name, url template, description). -/
structure Service where
  name : List Char
  url : List Char
  description : List Char
deriving DecidableEq, Repr

/-- URL substitution applied to one template inside the loop of
    substitute_service_urls (app.py lines 211-218): Python's truthiness
    test skips None and the empty string. -/
def substitute_url (host_ip base_domain : Option (List Char))
    (url_template : List Char) : List Char :=
  let url1 := match host_ip with
    | some v => if v.isEmpty then url_template else replaceAll url_template hostTok v
    | none => url_template
  match base_domain with
  | some v => if v.isEmpty then url1 else replaceAll url1 baseTok v
  | none => url1

/-- substitute_service_urls (app.py lines 198-221): a falsy services
    argument yields []; otherwise each service is copied with its url
    substituted and all other fields unchanged. -/
def substitute_service_urls (services : Option (List Service))
    (host_ip base_domain : Option (List Char)) : List Service :=
  match services with
  | none => []
  | some svcs =>
    if svcs.isEmpty then []
    else svcs.map (fun service =>
      { service with url := substitute_url host_ip base_domain service.url })

/-- A value the claim calls present: non-empty, and free of the placeholder
    marker so that it is not itself rewritten by the other token's pass. -/
def OptOk (o : Option (List Char)) : Prop :=
  ∀ v, o = some v → v ≠ [] ∧ '$' ∉ v

theorem substitute_url_spec (hip bd : Option (List Char))
    (hhip : OptOk hip) (hbd : OptOk bd)
    (segs : List Seg) (hok : LitsOk segs) :
    substitute_url hip bd (render segs) = renderWith hip bd segs := by
  unfold substitute_url
  rcases hh : hip with _ | v
  · rcases hb : bd with _ | w
    · exact render_eq_renderWith segs
    · obtain ⟨hwne, hwd⟩ := hbd w hb
      dsimp only
      rw [if_neg (by simpa [List.isEmpty_iff] using hwne)]
      rw [render_eq_renderWith]
      exact subst_pass_base w none (fun u hu => by cases hu) segs hok
  · obtain ⟨hvne, hvd⟩ := hhip v hh
    dsimp only
    rw [if_neg (by simpa [List.isEmpty_iff] using hvne)]
    rw [render_eq_renderWith]
    rw [subst_pass_host v segs hok]
    rcases hb : bd with _ | w
    · rfl
    · obtain ⟨hwne, hwd⟩ := hbd w hb
      dsimp only
      rw [if_neg (by simpa [List.isEmpty_iff] using hwne)]
      exact subst_pass_base w (some v) (fun u hu => by cases hu; exact hvd) segs hok

theorem forall2_subst_map (hip bd : Option (List Char))
    (hhip : OptOk hip) (hbd : OptOk bd) :
    ∀ svcs : List Service,
      List.Forall₂ (fun svc out =>
          out.name = svc.name ∧ out.description = svc.description ∧
          ∀ segs : List Seg, LitsOk segs → svc.url = render segs →
            out.url = renderWith hip bd segs)
        svcs
        (svcs.map (fun service =>
          { service with url := substitute_url hip bd service.url })) := by
  intro svcs
  induction svcs with
  | nil => exact List.Forall₂.nil
  | cons a t ihs =>
    refine List.Forall₂.cons ⟨rfl, rfl, ?_⟩ ihs
    intro segs hok hurl
    show substitute_url hip bd a.url = renderWith hip bd segs
    rw [hurl]
    exact substitute_url_spec hip bd hhip hbd segs hok

/-- C9: for every service list and optional host_ip / base_domain values
    (present meaning the truthy, non-empty case, with values free of the
    placeholder marker), the substituted list has equal length and order;
    within each URL template every token occurrence is replaced by the
    supplied value when present and left untouched when absent, literal
    text is unchanged, and the name and description fields are unchanged. -/
theorem C9_substitute_service_urls (svcs : List Service)
    (hip bd : Option (List Char)) (hhip : OptOk hip) (hbd : OptOk bd) :
    (substitute_service_urls (some svcs) hip bd).length = svcs.length ∧
    List.Forall₂ (fun svc out =>
        out.name = svc.name ∧ out.description = svc.description ∧
        ∀ segs : List Seg, LitsOk segs → svc.url = render segs →
          out.url = renderWith hip bd segs)
      svcs (substitute_service_urls (some svcs) hip bd) := by
  by_cases hemp : svcs.isEmpty
  · have hnil : svcs = [] := List.isEmpty_iff.mp hemp
    subst hnil
    exact ⟨rfl, List.Forall₂.nil⟩
  · have hout : substitute_service_urls (some svcs) hip bd
        = svcs.map (fun service =>
            { service with url := substitute_url hip bd service.url }) := by
      simp only [substitute_service_urls]
      rw [if_neg hemp]
    rw [hout]
    exact ⟨by simp, forall2_subst_map hip bd hhip hbd svcs⟩

/-- Concrete template for the C9 witness: literal text around both tokens. -/
def segsExample : List Seg :=
  [Seg.lit ("http://".toList), Seg.tokHost, Seg.lit (":3000/app".toList), Seg.tokBase]

/-- Concrete service for the C9 witness. -/
def svcExample : Service :=
  { name := "Studio".toList, url := render segsExample, description := "UI".toList }

/-- Witness for C9 at a concrete service list and concrete present values. -/
theorem C9_witness :
    (substitute_service_urls (some [svcExample]) (some ("203.0.113.7".toList))
        (some ("-ab.example.com".toList))).length = [svcExample].length ∧
    List.Forall₂ (fun svc out =>
        out.name = svc.name ∧ out.description = svc.description ∧
        ∀ segs : List Seg, LitsOk segs → svc.url = render segs →
          out.url = renderWith (some ("203.0.113.7".toList))
            (some ("-ab.example.com".toList)) segs)
      [svcExample]
      (substitute_service_urls (some [svcExample]) (some ("203.0.113.7".toList))
        (some ("-ab.example.com".toList))) :=
  C9_substitute_service_urls [svcExample]
    (some ("203.0.113.7".toList)) (some ("-ab.example.com".toList))
    (fun v hv => by cases hv; exact ⟨by decide, by decide⟩)
    (fun v hv => by cases hv; exact ⟨by decide, by decide⟩)

/-- C10: an empty-string host_ip (resp. base_domain) behaves exactly like
    an absent one, and an absent or empty service list yields []. -/
theorem C10_empty_equals_absent :
    (∀ (svcs : Option (List Service)) (bd : Option (List Char)),
      substitute_service_urls svcs (some []) bd =
        substitute_service_urls svcs none bd) ∧
    (∀ (svcs : Option (List Service)) (hip : Option (List Char)),
      substitute_service_urls svcs hip (some []) =
        substitute_service_urls svcs hip none) ∧
    (∀ hip bd, substitute_service_urls none hip bd = []) ∧
    (∀ hip bd, substitute_service_urls (some []) hip bd = []) := by
  refine ⟨?_, ?_, fun hip bd => rfl, fun hip bd => rfl⟩
  · intro svcs bd
    rcases svcs with _ | l
    · rfl
    · rfl
  · intro svcs hip
    rcases svcs with _ | l
    · rfl
    · rcases hip with _ | v <;> rfl

/-- Outcome of spawning one synchronous streamed command (Popen + readline
    loop): the displayed output lines and the exit code, or the message of
    an exception raised while spawning/streaming. -/
inductive SpawnOutcome where
  | ran : List String → Int → SpawnOutcome
  | raised : String → SpawnOutcome

/-- Normalization lifted to String commands. -/
def normalizeCmdS (compose_cmd : Option (List Char)) (cmd : String) : String :=
  (normalize_docker_compose_command compose_cmd cmd.toList).asString

/-- Result of the pre-command phase of /deploy/stream (app.py lines
    667-702): the records emitted and the commands actually spawned, and
    whether the phase aborted the run. -/
inductive PrePhase where
  | ok : List LogEntry → List String → PrePhase
  | failedAt : List LogEntry → List String → PrePhase

/-- Pre-command loop (app.py lines 667-702).  The spawn oracle is indexed
    by execution order; on an exception no output lines are observed. -/
def runPreCommands (compose_cmd : Option (List Char)) (spawn : Nat → SpawnOutcome)
    (total : Nat) : List String → Nat → PrePhase
  | [], _ => .ok [] []
  | cmd :: rest, k =>
    let normalized := normalizeCmdS compose_cmd cmd
    let hdr := [logMsg "section" ("Pre-command " ++ toString (k + 1) ++ "/" ++ toString total),
                logMsg "command" normalized]
    match spawn k with
    | .ran lines rc =>
      let outRecs := lines.map (fun l => logMsg "output" l)
      if rc = 0 then
        match runPreCommands compose_cmd spawn total rest (k + 1) with
        | .ok recs cmds => .ok (hdr ++ outRecs ++ recs) (normalized :: cmds)
        | .failedAt recs cmds => .failedAt (hdr ++ outRecs ++ recs) (normalized :: cmds)
      else
        .failedAt (hdr ++ outRecs ++
            [logMsg "error" ("Pre-command failed with exit code " ++ toString rc)])
          [normalized]
    | .raised msg =>
      .failedAt (hdr ++ [logMsg "error" ("Pre-command error: " ++ msg)]) [normalized]

/-- One iteration's observations of the monitoring loop (app.py lines
    727-773): the output lines drained from the queue, the done flag of the
    async command, the stripped stdout of the kubectl poll (empty both for
    no output and for a poll error), and whether the monitoring ceiling had
    elapsed at the timeout check. -/
structure Tick where
  drained : List (String × String)
  done : Bool
  podStatus : String
  overCeiling : Bool

/-- Pod-status records emitted when the poll output changed (app.py lines
    757-762): a pods header, then at most 15 non-blank lines. -/
def podRecords (podStatus : String) : List LogEntry :=
  logMsg "pods" "📦 Pod Status:" ::
    (((podStatus.splitOn "\n").take 15).filterMap (fun l =>
      if l.trim ≠ "" then some (logMsg "pod" l) else none))

/-- Output lines drained from the async command's queue. -/
def drainRecords (drained : List (String × String)) : List LogEntry :=
  drained.map (fun p => logMsg p.1 p.2)

/-- Pod records of one poll iteration: emitted only when the poll output is
    non-empty and differs from the previously observed text. -/
def pollRecords (podStatus lastPod : String) : List LogEntry :=
  if podStatus ≠ "" ∧ podStatus ≠ lastPod then podRecords podStatus else []

/-- Monitoring loop (app.py lines 727-773), one Tick per iteration:
    returns the records emitted and whether the monitoring ceiling fired.
    An exhausted tick schedule stands for an unobserved continuation. -/
def monitorLoop : List Tick → Nat → String → List LogEntry × Bool
  | [], _, _ => ([], false)
  | t :: rest, polls, lastPod =>
    if ¬ t.done ∨ polls < 2 then
      if t.done ∧ polls + 1 ≥ 2 then (drainRecords t.drained, false)
      else
        if t.overCeiling then
          (drainRecords t.drained ++ pollRecords t.podStatus lastPod ++
            [logMsg "info"
              "Monitoring timeout reached (15 min). Helm may still be running in background.",
             logMsg "info" "Check status with: kubectl get pods -n nemo"], true)
        else
          (drainRecords t.drained ++ pollRecords t.podStatus lastPod ++
            (monitorLoop rest (if t.done then polls + 1 else polls)
              (if t.podStatus ≠ "" ∧ t.podStatus ≠ lastPod then t.podStatus else lastPod)).1,
           (monitorLoop rest (if t.done then polls + 1 else polls)
              (if t.podStatus ≠ "" ∧ t.podStatus ≠ lastPod then t.podStatus else lastPod)).2)
    else ([], false)

/-- The durable record written by save_persistent_state on success
    (app.py lines 861-869). -/
structure PersistentRecord where
  deployed : Bool
  status : String
  deploy_type : String
  version : String
  deployed_at : Nat
  nspace : String
  services : List Service
deriving DecidableEq, Repr

/-- Post-command loop (app.py lines 800-834): best-effort, nonzero exits
    and exceptions become warnings and never abort. -/
def runPostCommands (compose_cmd : Option (List Char)) (spawn : Nat → SpawnOutcome)
    (total : Nat) : List String → Nat → List LogEntry
  | [], _ => []
  | cmd :: rest, k =>
    let normalized := normalizeCmdS compose_cmd cmd
    let hdr := [logMsg "info" ("Post-command " ++ toString (k + 1) ++ "/" ++ toString total),
                logMsg "command" normalized]
    let body := match spawn k with
      | .ran lines rc =>
        lines.map (fun l => logMsg "output" l) ++
          (if rc = 0 then [] else
            [logMsg "warning" ("Post-command exited with code " ++ toString rc ++ " (non-fatal)")])
      | .raised msg => [logMsg "warning" ("Post-command error: " ++ msg)]
    hdr ++ body ++ runPostCommands compose_cmd spawn total rest (k + 1)

/-- Last 20 non-blank lines of the captured output, shown on failure
    (app.py lines 884-887); an empty capture shows nothing. -/
def errorTail (stdout : String) : List LogEntry :=
  if stdout = "" then []
  else
    let lines := stdout.splitOn "\n"
    (lines.drop (lines.length - 20)).filterMap (fun l =>
      if l.trim ≠ "" then some (logMsg "error" l) else none)

/-- Final status report of /deploy/stream (app.py lines 789-888): returns
    the records emitted, the status passed to finish, and the persistent
    record written (none on every non-success path). -/
def reportFinal (compose_cmd : Option (List Char)) (postSpawn : Nat → SpawnOutcome)
    (timedOut : Bool) (rc : Option Int) (stdout : String)
    (post_commands : List String) (services : List Service)
    (host_ip base_domain : Option (List Char))
    (deploy_type version nspace : String) (now : Nat) :
    List LogEntry × String × Option PersistentRecord :=
  if timedOut ∧ rc = none then
    ([logMsg "info" "Helm install is running in background. Monitor with:",
      logMsg "command" "watch kubectl get pods -n nemo",
      { type := "complete" }], "timeout", none)
  else if rc = some 0 then
    let postRecs := if post_commands.isEmpty then [] else
      logMsg "section" "Post-deployment setup" ::
        runPostCommands compose_cmd postSpawn post_commands.length post_commands 0
    let resolved := substitute_service_urls (some services) host_ip base_domain
    let svcRecs := if services.isEmpty then [] else
      logMsg "section" "🔗 Available Services" ::
        resolved.map (fun svc =>
          { type := "service", name := some svc.name.asString,
            url := some svc.url.asString, description := some svc.description.asString })
    (postRecs ++ [logMsg "section" "🎉 Deployment Complete!"] ++ svcRecs ++
      [{ type := "complete" }],
     "success",
     some { deployed := true, status := "success", deploy_type := deploy_type,
            version := version, deployed_at := now, nspace := nspace,
            services := resolved })
  else if rc = none then
    ([logMsg "info" "Deployment status unknown. Check manually:",
      logMsg "command" "kubectl get pods -n nemo",
      { type := "complete" }], "unknown", none)
  else
    ([logMsg "error" ("Deployment failed with exit code " ++ toString (rc.getD 0))] ++
      errorTail stdout, "failed", none)

/-- Configuration slice of /deploy/stream relevant to the executed phases. -/
structure StreamCfg where
  compose_cmd : Option (List Char)
  pre_commands : List String
  command : String
  post_commands : List String
  services : List Service
  deploy_type : String
  version : String
  nspace : String

/-- External-world observations consumed by one /deploy/stream run. -/
structure StreamOracles where
  preSpawn : Nat → SpawnOutcome
  envFileOk : Bool
  ticks : List Tick
  rc : Option Int
  stdout : String
  finalDrain : List (String × String)
  postSpawn : Nat → SpawnOutcome
  host_ip : Option (List Char)
  host_header : Option (List Char)
  now : Nat

/-- Observable result of one leader run of /deploy/stream. -/
structure StreamRun where
  records : List LogEntry
  status : String
  persisted : Option PersistentRecord
  preSpawned : List String
  mainSpawned : Bool

/-- Leader path of /deploy/stream (app.py lines 654-888), from the start
    record through finish: environment setup records, the pre-command
    phase (aborting the run on its first failure), then the async main
    command monitored by the polling loop, and the final status report. -/
def deploy_stream_run (cfg : StreamCfg) (o : StreamOracles) : StreamRun :=
  let startRecs :=
    [logMsg "start" ("Starting " ++ cfg.deploy_type ++ " deployment..."),
     logMsg "section" "Environment Setup",
     logMsg "info" "Writing .env file for persistent secrets...",
     if o.envFileOk then logMsg "success" "✓ Secrets persisted to .env (secure: 600)"
     else logMsg "warning" "⚠ Failed to write .env file - secrets may not persist"]
  match runPreCommands cfg.compose_cmd o.preSpawn cfg.pre_commands.length cfg.pre_commands 0 with
  | .failedAt recs cmds =>
    { records := startRecs ++ recs, status := "failed", persisted := none,
      preSpawned := cmds, mainSpawned := false }
  | .ok recs cmds =>
    let normalizedMain := normalizeCmdS cfg.compose_cmd cfg.command
    let mainHdr := [logMsg "section" "Main Deployment", logMsg "command" normalizedMain]
    let loopRes := monitorLoop o.ticks 0 ""
    let drainRecs := drainRecords o.finalDrain
    let base_domain := extract_base_domain o.host_header
    let fin := reportFinal cfg.compose_cmd o.postSpawn loopRes.2 o.rc o.stdout
      cfg.post_commands cfg.services o.host_ip base_domain
      cfg.deploy_type cfg.version cfg.nspace o.now
    { records := startRecs ++ recs ++ mainHdr ++ loopRes.1 ++ drainRecs ++ fin.1,
      status := fin.2.1, persisted := fin.2.2,
      preSpawned := cmds, mainSpawned := true }

theorem runPreCommands_nil (compose_cmd : Option (List Char)) (spawn : Nat → SpawnOutcome)
    (total k : Nat) : runPreCommands compose_cmd spawn total [] k = .ok [] [] := rfl

theorem runPreCommands_cons (compose_cmd : Option (List Char)) (spawn : Nat → SpawnOutcome)
    (total : Nat) (cmd : String) (rest : List String) (k : Nat) :
    runPreCommands compose_cmd spawn total (cmd :: rest) k =
      match spawn k with
      | .ran lines rc =>
        if rc = 0 then
          match runPreCommands compose_cmd spawn total rest (k + 1) with
          | .ok recs cmds =>
            .ok ([logMsg "section" ("Pre-command " ++ toString (k + 1) ++ "/" ++ toString total),
                  logMsg "command" (normalizeCmdS compose_cmd cmd)] ++
                 lines.map (fun l => logMsg "output" l) ++ recs)
              (normalizeCmdS compose_cmd cmd :: cmds)
          | .failedAt recs cmds =>
            .failedAt ([logMsg "section" ("Pre-command " ++ toString (k + 1) ++ "/" ++ toString total),
                  logMsg "command" (normalizeCmdS compose_cmd cmd)] ++
                 lines.map (fun l => logMsg "output" l) ++ recs)
              (normalizeCmdS compose_cmd cmd :: cmds)
        else
          .failedAt ([logMsg "section" ("Pre-command " ++ toString (k + 1) ++ "/" ++ toString total),
                logMsg "command" (normalizeCmdS compose_cmd cmd)] ++
               lines.map (fun l => logMsg "output" l) ++
               [logMsg "error" ("Pre-command failed with exit code " ++ toString rc)])
            [normalizeCmdS compose_cmd cmd]
      | .raised msg =>
        .failedAt ([logMsg "section" ("Pre-command " ++ toString (k + 1) ++ "/" ++ toString total),
              logMsg "command" (normalizeCmdS compose_cmd cmd)] ++
             [logMsg "error" ("Pre-command error: " ++ msg)])
          [normalizeCmdS compose_cmd cmd] := rfl

/-- The first failing pre-command (nonzero exit or spawn exception) aborts
    the phase: exactly the prefix up to and including it is spawned, and
    the matching error record is among the emitted records. -/
theorem runPre_fails (compose_cmd : Option (List Char)) (spawn : Nat → SpawnOutcome)
    (total : Nat) :
    ∀ (A : List String) (c : String) (B : List String) (k : Nat),
      (∀ i, i < A.length → ∃ lines, spawn (k + i) = SpawnOutcome.ran lines 0) →
      ∀ e, spawn (k + A.length) = e →
      (match e with
       | SpawnOutcome.ran _ rc => rc ≠ 0
       | SpawnOutcome.raised _ => True) →
      ∃ recs, runPreCommands compose_cmd spawn total (A ++ c :: B) k =
          PrePhase.failedAt recs ((A ++ [c]).map (normalizeCmdS compose_cmd)) ∧
        (match e with
         | SpawnOutcome.ran _ rc =>
             logMsg "error" ("Pre-command failed with exit code " ++ toString rc) ∈ recs
         | SpawnOutcome.raised msg =>
             logMsg "error" ("Pre-command error: " ++ msg) ∈ recs) := by
  intro A
  induction A with
  | nil =>
    intro c B k hA e hsp hcond
    simp only [List.length_nil, Nat.add_zero] at hsp
    rcases e with ⟨lines, rc⟩ | msg
    · refine ⟨[logMsg "section" ("Pre-command " ++ toString (k + 1) ++ "/" ++ toString total),
          logMsg "command" (normalizeCmdS compose_cmd c)] ++
          lines.map (fun l => logMsg "output" l) ++
          [logMsg "error" ("Pre-command failed with exit code " ++ toString rc)], ?_, ?_⟩
      · rw [List.nil_append, runPreCommands_cons, hsp]
        dsimp only
        rw [if_neg hcond]
        simp
      · simp
    · refine ⟨[logMsg "section" ("Pre-command " ++ toString (k + 1) ++ "/" ++ toString total),
          logMsg "command" (normalizeCmdS compose_cmd c)] ++
          [logMsg "error" ("Pre-command error: " ++ msg)], ?_, ?_⟩
      · rw [List.nil_append, runPreCommands_cons, hsp]
        simp
      · simp
  | cons a A' ih =>
    intro c B k hA e hsp hcond
    obtain ⟨lines0, h0⟩ := hA 0 (Nat.succ_pos _)
    rw [Nat.add_zero] at h0
    have hA' : ∀ i, i < A'.length → ∃ lines, spawn (k + 1 + i) = SpawnOutcome.ran lines 0 := by
      intro i hi
      have := hA (i + 1) (by simpa using Nat.succ_lt_succ hi)
      rwa [show k + (i + 1) = k + 1 + i from by omega] at this
    have hsp' : spawn (k + 1 + A'.length) = e := by
      rw [show k + 1 + A'.length = k + (a :: A').length from by
        simp only [List.length_cons]; omega]
      exact hsp
    obtain ⟨recs', heq', hmem'⟩ := ih c B (k + 1) hA' e hsp' hcond
    refine ⟨[logMsg "section" ("Pre-command " ++ toString (k + 1) ++ "/" ++ toString total),
        logMsg "command" (normalizeCmdS compose_cmd a)] ++
        lines0.map (fun l => logMsg "output" l) ++ recs', ?_, ?_⟩
    · rw [List.cons_append, runPreCommands_cons, h0]
      dsimp only
      rw [if_pos rfl, heq']
      dsimp only
      rw [show ((a :: A') ++ [c]).map (normalizeCmdS compose_cmd)
          = normalizeCmdS compose_cmd a :: ((A' ++ [c]).map (normalizeCmdS compose_cmd)) from by
        simp]
    · rcases e with ⟨lines, rc⟩ | msg
      · exact List.mem_append_right _ hmem'
      · exact List.mem_append_right _ hmem'

theorem deploy_stream_run_of_preFailed (cfg : StreamCfg) (o : StreamOracles)
    (recs : List LogEntry) (cmds : List String)
    (h : runPreCommands cfg.compose_cmd o.preSpawn cfg.pre_commands.length
          cfg.pre_commands 0 = PrePhase.failedAt recs cmds) :
    (deploy_stream_run cfg o).status = "failed" ∧
    (deploy_stream_run cfg o).mainSpawned = false ∧
    (deploy_stream_run cfg o).preSpawned = cmds ∧
    (deploy_stream_run cfg o).persisted = none ∧
    ∀ e ∈ recs, e ∈ (deploy_stream_run cfg o).records := by
  simp only [deploy_stream_run]
  rw [h]
  refine ⟨rfl, rfl, rfl, rfl, ?_⟩
  intro e he
  exact List.mem_append_right _ he

/-- C2: in the streaming deploy flow, if every pre-command before position
    |A| exits 0 and the pre-command at position |A| exits nonzero (first
    part) or fails to spawn (second part), then an error record referencing
    that exit code (resp. the spawn error) is emitted, the run is finalized
    with status failed, exactly the commands up to and including the
    failing one are spawned, the main command is never spawned, and no
    persistent record is written. -/
theorem C2_pre_command_abort (cfg : StreamCfg) (o : StreamOracles)
    (A : List String) (c : String) (B : List String)
    (hsplit : cfg.pre_commands = A ++ c :: B)
    (hA : ∀ i, i < A.length → ∃ lines, o.preSpawn i = SpawnOutcome.ran lines 0) :
    (∀ lines rc, o.preSpawn A.length = SpawnOutcome.ran lines rc → rc ≠ 0 →
      (deploy_stream_run cfg o).status = "failed" ∧
      (deploy_stream_run cfg o).mainSpawned = false ∧
      (deploy_stream_run cfg o).preSpawned =
        (A ++ [c]).map (normalizeCmdS cfg.compose_cmd) ∧
      (deploy_stream_run cfg o).persisted = none ∧
      logMsg "error" ("Pre-command failed with exit code " ++ toString rc) ∈
        (deploy_stream_run cfg o).records) ∧
    (∀ msg, o.preSpawn A.length = SpawnOutcome.raised msg →
      (deploy_stream_run cfg o).status = "failed" ∧
      (deploy_stream_run cfg o).mainSpawned = false ∧
      (deploy_stream_run cfg o).preSpawned =
        (A ++ [c]).map (normalizeCmdS cfg.compose_cmd) ∧
      (deploy_stream_run cfg o).persisted = none ∧
      logMsg "error" ("Pre-command error: " ++ msg) ∈
        (deploy_stream_run cfg o).records) := by
  have hA0 : ∀ i, i < A.length → ∃ lines, o.preSpawn (0 + i) = SpawnOutcome.ran lines 0 := by
    intro i hi
    rw [Nat.zero_add]
    exact hA i hi
  constructor
  · intro lines rc hsp hrc
    obtain ⟨recs, heq, hmem⟩ := runPre_fails cfg.compose_cmd o.preSpawn
      cfg.pre_commands.length A c B 0 hA0 (SpawnOutcome.ran lines rc)
      (by rw [Nat.zero_add]; exact hsp) hrc
    rw [← hsplit] at heq
    obtain ⟨h1, h2, h3, h4, h5⟩ := deploy_stream_run_of_preFailed cfg o recs _ heq
    exact ⟨h1, h2, h3, h4, h5 _ hmem⟩
  · intro msg hsp
    obtain ⟨recs, heq, hmem⟩ := runPre_fails cfg.compose_cmd o.preSpawn
      cfg.pre_commands.length A c B 0 hA0 (SpawnOutcome.raised msg)
      (by rw [Nat.zero_add]; exact hsp) trivial
    rw [← hsplit] at heq
    obtain ⟨h1, h2, h3, h4, h5⟩ := deploy_stream_run_of_preFailed cfg o recs _ heq
    exact ⟨h1, h2, h3, h4, h5 _ hmem⟩

/-- Concrete configuration for the C2 witness: pre-commands [A, B] where A
    succeeds and B exits 1. -/
def cfgC2 : StreamCfg :=
  { compose_cmd := none, pre_commands := ["echo a", "exit 1"], command := "echo main",
    post_commands := [], services := [], deploy_type := "docker-compose",
    version := "1.0", nspace := "nemo" }

/-- Concrete oracles for the C2 witness. -/
def oC2 : StreamOracles :=
  { preSpawn := fun i => if i = 0 then SpawnOutcome.ran ["a"] 0 else SpawnOutcome.ran [] 1,
    envFileOk := true, ticks := [], rc := none, stdout := "", finalDrain := [],
    postSpawn := fun _ => SpawnOutcome.ran [] 0, host_ip := none, host_header := none,
    now := 0 }

/-- Witness for C2 at the concrete run where the second pre-command exits 1. -/
theorem C2_witness :
    (deploy_stream_run cfgC2 oC2).status = "failed" ∧
    (deploy_stream_run cfgC2 oC2).mainSpawned = false ∧
    (deploy_stream_run cfgC2 oC2).preSpawned =
      ((["echo a"] ++ ["exit 1"]).map (normalizeCmdS none)) ∧
    (deploy_stream_run cfgC2 oC2).persisted = none ∧
    logMsg "error" ("Pre-command failed with exit code " ++ toString (1 : Int)) ∈
      (deploy_stream_run cfgC2 oC2).records :=
  (C2_pre_command_abort cfgC2 oC2 ["echo a"] "exit 1" [] rfl
    (fun i hi => by
      have h0 : i = 0 := by
        simp only [List.length_cons, List.length_nil] at hi
        omega
      subst h0
      exact ⟨["a"], rfl⟩)).1 [] 1 rfl (by decide)

theorem monitorLoop_cons (t : Tick) (rest : List Tick) (polls : Nat) (lastPod : String) :
    monitorLoop (t :: rest) polls lastPod =
      if ¬ t.done ∨ polls < 2 then
        if t.done ∧ polls + 1 ≥ 2 then (drainRecords t.drained, false)
        else
          if t.overCeiling then
            (drainRecords t.drained ++ pollRecords t.podStatus lastPod ++
              [logMsg "info"
                "Monitoring timeout reached (15 min). Helm may still be running in background.",
               logMsg "info" "Check status with: kubectl get pods -n nemo"], true)
          else
            (drainRecords t.drained ++ pollRecords t.podStatus lastPod ++
              (monitorLoop rest (if t.done then polls + 1 else polls)
                (if t.podStatus ≠ "" ∧ t.podStatus ≠ lastPod then t.podStatus else lastPod)).1,
             (monitorLoop rest (if t.done then polls + 1 else polls)
                (if t.podStatus ≠ "" ∧ t.podStatus ≠ lastPod then t.podStatus else lastPod)).2)
      else ([], false) := rfl

/-- When the monitoring loop reports the ceiling fired, both informational
    timeout records were emitted inside the loop. -/
theorem monitorLoop_timeout_records :
    ∀ (ticks : List Tick) (polls : Nat) (lastPod : String),
      (monitorLoop ticks polls lastPod).2 = true →
      logMsg "info"
          "Monitoring timeout reached (15 min). Helm may still be running in background."
        ∈ (monitorLoop ticks polls lastPod).1 ∧
      logMsg "info" "Check status with: kubectl get pods -n nemo"
        ∈ (monitorLoop ticks polls lastPod).1 := by
  intro ticks
  induction ticks with
  | nil =>
    intro polls lastPod h
    exact absurd h (by simp [monitorLoop])
  | cons t rest ih =>
    intro polls lastPod h
    rw [monitorLoop_cons] at h ⊢
    by_cases h1 : ¬ t.done ∨ polls < 2
    · rw [if_pos h1] at h ⊢
      by_cases h2 : t.done ∧ polls + 1 ≥ 2
      · rw [if_pos h2] at h
        exact absurd h (by simp)
      · rw [if_neg h2] at h ⊢
        by_cases h3 : t.overCeiling = true
        · rw [if_pos h3]
          constructor <;> simp
        · rw [if_neg h3] at h ⊢
          obtain ⟨m1, m2⟩ := ih _ _ (by simpa using h)
          exact ⟨List.mem_append_right _ m1, List.mem_append_right _ m2⟩
    · rw [if_neg h1] at h
      exact absurd h (by simp)

/-- C3: when the monitoring ceiling elapses before the main command is
    observed finished (returncode still unavailable after the join), the
    run emits the informational records saying the action may still be in
    progress, is finalized with status timeout (never failed), and the
    persistent success record is not written. -/
theorem C3_monitor_timeout (cfg : StreamCfg) (o : StreamOracles)
    (preRecs : List LogEntry) (preCmds : List String)
    (hpre : runPreCommands cfg.compose_cmd o.preSpawn cfg.pre_commands.length
      cfg.pre_commands 0 = PrePhase.ok preRecs preCmds)
    (htime : (monitorLoop o.ticks 0 "").2 = true)
    (hrc : o.rc = none) :
    (deploy_stream_run cfg o).status = "timeout" ∧
    (deploy_stream_run cfg o).status ≠ "failed" ∧
    (deploy_stream_run cfg o).persisted = none ∧
    logMsg "info"
        "Monitoring timeout reached (15 min). Helm may still be running in background."
      ∈ (deploy_stream_run cfg o).records ∧
    logMsg "info" "Check status with: kubectl get pods -n nemo"
      ∈ (deploy_stream_run cfg o).records ∧
    logMsg "info" "Helm install is running in background. Monitor with:"
      ∈ (deploy_stream_run cfg o).records := by
  have hfin : reportFinal cfg.compose_cmd o.postSpawn (monitorLoop o.ticks 0 "").2 o.rc
      o.stdout cfg.post_commands cfg.services o.host_ip
      (extract_base_domain o.host_header) cfg.deploy_type cfg.version cfg.nspace o.now
      = ([logMsg "info" "Helm install is running in background. Monitor with:",
          logMsg "command" "watch kubectl get pods -n nemo",
          { type := "complete" }], "timeout", none) := by
    rw [htime, hrc]
    unfold reportFinal
    rw [if_pos ⟨rfl, rfl⟩]
  obtain ⟨m1, m2⟩ := monitorLoop_timeout_records o.ticks 0 "" htime
  simp only [deploy_stream_run]
  rw [hpre]
  dsimp only
  rw [hfin]
  refine ⟨rfl, by decide, rfl, ?_, ?_, ?_⟩
  · exact List.mem_append_left _ (List.mem_append_left _ (List.mem_append_right _ m1))
  · exact List.mem_append_left _ (List.mem_append_left _ (List.mem_append_right _ m2))
  · exact List.mem_append_right _ (by simp)

/-- Concrete configuration for the C3 witness. -/
def cfgC3 : StreamCfg :=
  { compose_cmd := none, pre_commands := [], command := "helm install rel ./chart",
    post_commands := [], services := [], deploy_type := "helm",
    version := "1.0", nspace := "nemo" }

/-- Concrete oracles for the C3 witness: the first poll iteration finds the
    ceiling elapsed and the main command never reports a returncode. -/
def oC3 : StreamOracles :=
  { preSpawn := fun _ => SpawnOutcome.ran [] 0, envFileOk := true,
    ticks := [{ drained := [], done := false, podStatus := "", overCeiling := true }],
    rc := none, stdout := "", finalDrain := [],
    postSpawn := fun _ => SpawnOutcome.ran [] 0, host_ip := none, host_header := none,
    now := 0 }

/-- Witness for C3 at the concrete timed-out run. -/
theorem C3_witness :
    (deploy_stream_run cfgC3 oC3).status = "timeout" ∧
    (deploy_stream_run cfgC3 oC3).status ≠ "failed" ∧
    (deploy_stream_run cfgC3 oC3).persisted = none ∧
    logMsg "info"
        "Monitoring timeout reached (15 min). Helm may still be running in background."
      ∈ (deploy_stream_run cfgC3 oC3).records ∧
    logMsg "info" "Check status with: kubectl get pods -n nemo"
      ∈ (deploy_stream_run cfgC3 oC3).records ∧
    logMsg "info" "Helm install is running in background. Monitor with:"
      ∈ (deploy_stream_run cfgC3 oC3).records :=
  C3_monitor_timeout cfgC3 oC3 [] [] rfl (by decide) rfl

/-- Inputs of one /uninstall request that the guarded flow reads: the
    persisted deployed flag, whether a deployment type resolves (persisted
    type or first config key), and the configured uninstall commands. -/
structure UninstallInput where
  deployed : Bool
  deployTypeResolved : Bool
  uninstall_commands : List String
  compose_cmd : Option (List Char)

/-- External-world observations of one /uninstall run. -/
structure UninstallOracles where
  spawn : Nat → SpawnOutcome
  cleanupOk : Bool

/-- Result of the uninstall command loop. -/
structure ULoop where
  frames : List LogEntry
  executed : List String
  allSuccess : Bool

/-- Uninstall command loop (app.py lines 1074-1105): sequential, streamed;
    a nonzero exit or spawn error records an error and clears the
    aggregate flag but never aborts the remaining commands. -/
def uninstallLoop (compose_cmd : Option (List Char)) (spawn : Nat → SpawnOutcome)
    (total : Nat) : List String → Nat → ULoop
  | [], _ => { frames := [], executed := [], allSuccess := true }
  | cmd :: rest, k =>
    match spawn k with
    | .ran lines rc =>
      { frames := [logMsg "section" ("Command " ++ toString (k + 1) ++ "/" ++ toString total),
            logMsg "command" (normalizeCmdS compose_cmd cmd)] ++
          lines.map (fun l => logMsg "output" l) ++
          [if rc = 0 then logMsg "success" "✓ Command completed"
           else logMsg "error" ("Command exited with code " ++ toString rc)] ++
          (uninstallLoop compose_cmd spawn total rest (k + 1)).frames,
        executed := normalizeCmdS compose_cmd cmd ::
          (uninstallLoop compose_cmd spawn total rest (k + 1)).executed,
        allSuccess := decide (rc = 0) &&
          (uninstallLoop compose_cmd spawn total rest (k + 1)).allSuccess }
    | .raised msg =>
      { frames := [logMsg "section" ("Command " ++ toString (k + 1) ++ "/" ++ toString total),
            logMsg "command" (normalizeCmdS compose_cmd cmd)] ++
          [logMsg "error" ("Command error: " ++ msg)] ++
          (uninstallLoop compose_cmd spawn total rest (k + 1)).frames,
        executed := normalizeCmdS compose_cmd cmd ::
          (uninstallLoop compose_cmd spawn total rest (k + 1)).executed,
        allSuccess := false }

/-- Observable result of one /uninstall request. -/
structure UninstallRun where
  frames : List LogEntry
  executed : List String
  cleanupAttempted : Bool
  stateCleared : Bool

/-- The /uninstall flow (app.py lines 1040-1130): guard on the persisted
    deployed flag, deployment-type and uninstall-command checks, the
    command loop, best-effort .env cleanup, unconditional clearing of the
    persistent record, and the final complete frame whose success field is
    the literal True on this (non-exception) path. -/
def uninstall_run (inp : UninstallInput) (o : UninstallOracles) : UninstallRun :=
  if inp.deployed = false then
    { frames := [logMsg "error" "Nothing to uninstall"], executed := [],
      cleanupAttempted := false, stateCleared := false }
  else if inp.deployTypeResolved = false then
    { frames := [logMsg "error" "No deployment type configured"], executed := [],
      cleanupAttempted := false, stateCleared := false }
  else if inp.uninstall_commands.isEmpty then
    { frames := [logMsg "error" "No uninstall commands configured"], executed := [],
      cleanupAttempted := false, stateCleared := false }
  else
    { frames := [logMsg "start" "Starting uninstall..."] ++
        (uninstallLoop inp.compose_cmd o.spawn inp.uninstall_commands.length
          inp.uninstall_commands 0).frames ++
        [logMsg "section" "Cleanup", logMsg "info" "Removing .env file..."] ++
        [if o.cleanupOk then logMsg "success" "✓ Secrets cleaned up"
         else logMsg "warning" "⚠ Could not remove .env file"] ++
        [logMsg "section" "Uninstall Complete"] ++
        [if (uninstallLoop inp.compose_cmd o.spawn inp.uninstall_commands.length
              inp.uninstall_commands 0).allSuccess then
           logMsg "success" "✓ All resources removed successfully"
         else logMsg "info" "Some commands had warnings - resources may still be removed"] ++
        [{ type := "complete", success := some true }],
      executed := (uninstallLoop inp.compose_cmd o.spawn inp.uninstall_commands.length
        inp.uninstall_commands 0).executed,
      cleanupAttempted := true, stateCleared := true }

/-- C6: an uninstall request while the persistent record has deployed
    false (or absent, which get_persistent_state reads as deployed false)
    produces exactly one error frame, executes no command, does not touch
    the secrets file, and does not clear the persistent record. -/
theorem C6_uninstall_guard (inp : UninstallInput) (o : UninstallOracles)
    (h : inp.deployed = false) :
    (uninstall_run inp o).frames = [logMsg "error" "Nothing to uninstall"] ∧
    (uninstall_run inp o).executed = [] ∧
    (uninstall_run inp o).cleanupAttempted = false ∧
    (uninstall_run inp o).stateCleared = false := by
  unfold uninstall_run
  rw [if_pos h]
  exact ⟨rfl, rfl, rfl, rfl⟩

/-- Witness for C6 at a concrete undeployed state. -/
theorem C6_witness :
    (uninstall_run
        { deployed := false, deployTypeResolved := true,
          uninstall_commands := ["docker-compose down"], compose_cmd := none }
        { spawn := fun _ => SpawnOutcome.ran [] 0, cleanupOk := true }).frames =
      [logMsg "error" "Nothing to uninstall"] ∧
    (uninstall_run
        { deployed := false, deployTypeResolved := true,
          uninstall_commands := ["docker-compose down"], compose_cmd := none }
        { spawn := fun _ => SpawnOutcome.ran [] 0, cleanupOk := true }).executed = [] ∧
    (uninstall_run
        { deployed := false, deployTypeResolved := true,
          uninstall_commands := ["docker-compose down"], compose_cmd := none }
        { spawn := fun _ => SpawnOutcome.ran [] 0, cleanupOk := true }).cleanupAttempted
      = false ∧
    (uninstall_run
        { deployed := false, deployTypeResolved := true,
          uninstall_commands := ["docker-compose down"], compose_cmd := none }
        { spawn := fun _ => SpawnOutcome.ran [] 0, cleanupOk := true }).stateCleared
      = false :=
  C6_uninstall_guard
    { deployed := false, deployTypeResolved := true,
      uninstall_commands := ["docker-compose down"], compose_cmd := none }
    { spawn := fun _ => SpawnOutcome.ran [] 0, cleanupOk := true } rfl

/-- Concrete guard-passing uninstall input whose single command exits 1. -/
def inpC4 : UninstallInput :=
  { deployed := true, deployTypeResolved := true,
    uninstall_commands := ["docker-compose down"], compose_cmd := none }

/-- Concrete oracles for the C4 counterexample and witness. -/
def oC4 : UninstallOracles :=
  { spawn := fun _ => SpawnOutcome.ran [] 1, cleanupOk := true }

/-- C4 counterexample: with the single uninstall command exiting 1 the
    aggregate-success flag is false, yet the final frame of kind complete
    carries success = true, so the complete frame does not carry the
    aggregate flag. -/
theorem C4_counterexample :
    (uninstallLoop inpC4.compose_cmd oC4.spawn inpC4.uninstall_commands.length
        inpC4.uninstall_commands 0).allSuccess = false ∧
    (uninstall_run inpC4 oC4).frames.getLast? =
      some { type := "complete", success := some true } ∧
    some true ≠ some ((uninstallLoop inpC4.compose_cmd oC4.spawn
      inpC4.uninstall_commands.length inpC4.uninstall_commands 0).allSuccess) := by
  refine ⟨by decide, ?_, by decide⟩
  decide

/-- C4 (amended): for every uninstall run that passes the deployed guard
    (and resolves a type with a non-empty command list), the secrets file
    removal is attempted and the persistent record is cleared regardless of
    command outcomes, and the final frame of kind complete carries
    success = true unconditionally on this path; the aggregate-success flag
    instead selects the penultimate message record (success when every
    command exited 0, info otherwise). -/
theorem C4_uninstall_cleanup (inp : UninstallInput) (o : UninstallOracles)
    (hd : inp.deployed = true) (ht : inp.deployTypeResolved = true)
    (hc : inp.uninstall_commands ≠ []) :
    (uninstall_run inp o).cleanupAttempted = true ∧
    (uninstall_run inp o).stateCleared = true ∧
    (uninstall_run inp o).frames.getLast? =
      some { type := "complete", success := some true } ∧
    ((uninstallLoop inp.compose_cmd o.spawn inp.uninstall_commands.length
        inp.uninstall_commands 0).allSuccess = true →
      logMsg "success" "✓ All resources removed successfully" ∈ (uninstall_run inp o).frames) ∧
    ((uninstallLoop inp.compose_cmd o.spawn inp.uninstall_commands.length
        inp.uninstall_commands 0).allSuccess = false →
      logMsg "info" "Some commands had warnings - resources may still be removed"
        ∈ (uninstall_run inp o).frames) := by
  have hbody : uninstall_run inp o =
      { frames := [logMsg "start" "Starting uninstall..."] ++
          (uninstallLoop inp.compose_cmd o.spawn inp.uninstall_commands.length
            inp.uninstall_commands 0).frames ++
          [logMsg "section" "Cleanup", logMsg "info" "Removing .env file..."] ++
          [if o.cleanupOk then logMsg "success" "✓ Secrets cleaned up"
           else logMsg "warning" "⚠ Could not remove .env file"] ++
          [logMsg "section" "Uninstall Complete"] ++
          [if (uninstallLoop inp.compose_cmd o.spawn inp.uninstall_commands.length
                inp.uninstall_commands 0).allSuccess then
             logMsg "success" "✓ All resources removed successfully"
           else logMsg "info" "Some commands had warnings - resources may still be removed"] ++
          [{ type := "complete", success := some true }],
        executed := (uninstallLoop inp.compose_cmd o.spawn inp.uninstall_commands.length
          inp.uninstall_commands 0).executed,
        cleanupAttempted := true, stateCleared := true } := by
    unfold uninstall_run
    rw [if_neg (by rw [hd]; exact fun hcon => absurd hcon (by decide)),
        if_neg (by rw [ht]; exact fun hcon => absurd hcon (by decide)),
        if_neg (by simpa [List.isEmpty_iff] using hc)]
  rw [hbody]
  refine ⟨rfl, rfl, ?_, ?_, ?_⟩
  · exact List.getLast?_concat _
  · intro hall
    rw [hall]
    simp
  · intro hall
    rw [hall]
    simp

/-- Witness for C4 at the concrete failing-command run. -/
theorem C4_witness :
    (uninstall_run inpC4 oC4).cleanupAttempted = true ∧
    (uninstall_run inpC4 oC4).stateCleared = true ∧
    (uninstall_run inpC4 oC4).frames.getLast? =
      some { type := "complete", success := some true } ∧
    ((uninstallLoop inpC4.compose_cmd oC4.spawn inpC4.uninstall_commands.length
        inpC4.uninstall_commands 0).allSuccess = true →
      logMsg "success" "✓ All resources removed successfully" ∈ (uninstall_run inpC4 oC4).frames) ∧
    ((uninstallLoop inpC4.compose_cmd oC4.spawn inpC4.uninstall_commands.length
        inpC4.uninstall_commands 0).allSuccess = false →
      logMsg "info" "Some commands had warnings - resources may still be removed"
        ∈ (uninstall_run inpC4 oC4).frames) :=
  C4_uninstall_cleanup inpC4 oC4 rfl rfl (by decide)

theorem prefix_append_split {p a b : List Char} (h : p <+: a ++ b) :
    p <+: a ∨ ∃ q, p = a ++ q ∧ q <+: b := by
  induction a generalizing p with
  | nil => exact Or.inr ⟨p, rfl, by simpa using h⟩
  | cons c a' ih =>
    rcases p with _ | ⟨p0, p'⟩
    · exact Or.inl List.nil_prefix
    · rw [List.cons_append] at h
      obtain ⟨he, h2⟩ := List.cons_prefix_cons.mp h
      rcases ih h2 with h3 | ⟨q, hq1, hq2⟩
      · exact Or.inl (by rw [he]; exact List.cons_prefix_cons.mpr ⟨rfl, h3⟩)
      · exact Or.inr ⟨q, by rw [he, hq1, List.cons_append], hq2⟩

theorem infix_append_split {sec a b : List Char} (h : sec <:+: a ++ b) :
    sec <:+: a ∨ sec <:+: b ∨
      ∃ s1 s2, sec = s1 ++ s2 ∧ s1 ≠ [] ∧ s2 ≠ [] ∧ s1 <:+ a ∧ s2 <+: b := by
  induction a generalizing sec with
  | nil => exact Or.inr (Or.inl (by simpa using h))
  | cons c a' ih =>
    rw [List.cons_append] at h
    rcases List.infix_cons_iff.mp h with h1 | h1
    · rcases sec with _ | ⟨s0, sec'⟩
      · exact Or.inl List.nil_infix
      · obtain ⟨he, h2⟩ := List.cons_prefix_cons.mp h1
        rcases prefix_append_split h2 with h3 | ⟨q, hq1, hq2⟩
        · exact Or.inl (by
            rw [he]
            exact (List.cons_prefix_cons.mpr ⟨rfl, h3⟩).isInfix)
        · rcases q with _ | ⟨q0, q'⟩
          · refine Or.inl ?_
            rw [List.append_nil] at hq1
            rw [he, hq1]
          · refine Or.inr (Or.inr ⟨c :: a', q0 :: q', ?_, by simp, by simp,
              List.suffix_refl _, hq2⟩)
            rw [he, hq1, List.cons_append]
    · rcases ih h1 with h2 | h2 | ⟨s1, s2, hs, hn1, hn2, hsuf, hpre⟩
      · exact Or.inl (h2.trans (List.tail_suffix (c :: a')).isInfix)
      · exact Or.inr (Or.inl h2)
      · exact Or.inr (Or.inr ⟨s1, s2, hs, hn1, hn2,
          hsuf.trans (List.tail_suffix (c :: a')), hpre⟩)

/-- Applying one re.sub pass: scan left to right; where the matcher reports
    a match of d consumed characters whose捕 captured group spans the first
    g, keep the group, insert the mask, and continue after the match;
    otherwise keep one character and continue. -/
def scanSub (try1 : List Char → Option (Nat × Nat))
    (hdec : ∀ s g d, try1 s = some (g, d) → 0 < d ∧ 0 < s.length) :
    List Char → List Char
  | [] => []
  | c :: rest =>
    match h : try1 (c :: rest) with
    | some (g, d) =>
      (c :: rest).take g ++ "***".toList ++ scanSub try1 hdec ((c :: rest).drop d)
    | none => c :: scanSub try1 hdec rest
termination_by s => s.length
decreasing_by
  · obtain ⟨hd, hl⟩ := hdec _ _ _ h
    simp only [List.length_drop]
    omega
  · simp

theorem scanSub_nil (try1 : List Char → Option (Nat × Nat))
    (hdec : ∀ s g d, try1 s = some (g, d) → 0 < d ∧ 0 < s.length) :
    scanSub try1 hdec [] = [] := by
  rw [scanSub.eq_def]

theorem scanSub_some (try1 : List Char → Option (Nat × Nat))
    (hdec : ∀ s g d, try1 s = some (g, d) → 0 < d ∧ 0 < s.length)
    (c : Char) (rest : List Char) (g d : Nat) (h : try1 (c :: rest) = some (g, d)) :
    scanSub try1 hdec (c :: rest) =
      (c :: rest).take g ++ "***".toList ++ scanSub try1 hdec ((c :: rest).drop d) := by
  rw [scanSub.eq_def]
  dsimp only
  split
  · next g' d' heq =>
    rw [h] at heq
    cases heq
    rfl
  · next heq =>
    rw [h] at heq
    cases heq

theorem scanSub_none (try1 : List Char → Option (Nat × Nat))
    (hdec : ∀ s g d, try1 s = some (g, d) → 0 < d ∧ 0 < s.length)
    (c : Char) (rest : List Char) (h : try1 (c :: rest) = none) :
    scanSub try1 hdec (c :: rest) = c :: scanSub try1 hdec rest := by
  rw [scanSub.eq_def]
  dsimp only
  split
  · next g' d' heq =>
    rw [h] at heq
    cases heq
  · rfl

/-- A mask-character-free prefix of a re.sub pass output is already a
    prefix of the input. -/
theorem scanSub_prefix_transfer (try1 : List Char → Option (Nat × Nat))
    (hdec : ∀ s g d, try1 s = some (g, d) → 0 < d ∧ 0 < s.length) :
    ∀ s p : List Char, '*' ∉ p → p <+: scanSub try1 hdec s → p <+: s := by
  suffices h : ∀ n (s p : List Char), s.length ≤ n → '*' ∉ p →
      p <+: scanSub try1 hdec s → p <+: s by
    exact fun s p => h s.length s p le_rfl
  intro n
  induction n with
  | zero =>
    intro s p hs hstar hp
    have : s = [] := List.eq_nil_of_length_eq_zero (Nat.le_zero.mp hs)
    subst this
    rw [scanSub_nil] at hp
    rw [List.prefix_nil.mp hp]
  | succ n ih =>
    intro s p hs hstar hp
    rcases s with _ | ⟨c, rest⟩
    · rw [scanSub_nil] at hp
      rw [List.prefix_nil.mp hp]
    rcases hm : try1 (c :: rest) with _ | ⟨g, d⟩
    · rw [scanSub_none try1 hdec c rest hm] at hp
      rcases p with _ | ⟨p0, p'⟩
      · exact List.nil_prefix
      · obtain ⟨he, h2⟩ := List.cons_prefix_cons.mp hp
        have hlen : rest.length ≤ n := by
          simp only [List.length_cons] at hs; omega
        have h3 : p' <+: rest :=
          ih rest p' hlen (fun hx => hstar (List.mem_cons_of_mem p0 hx)) h2
        rw [he]
        exact List.cons_prefix_cons.mpr ⟨rfl, h3⟩
    · rw [scanSub_some try1 hdec c rest g d hm] at hp
      rw [List.append_assoc] at hp
      rcases prefix_append_split hp with h1 | ⟨q, hq1, hq2⟩
      · exact h1.trans (List.take_prefix g (c :: rest))
      · rcases q with _ | ⟨q0, q'⟩
        · rw [List.append_nil] at hq1
          rw [hq1]
          exact List.take_prefix g (c :: rest)
        · exfalso
          have : q0 = '*' := (List.cons_prefix_cons.mp hq2).1
          apply hstar
          rw [hq1, this]
          exact List.mem_append_right _ (List.mem_cons_self _ _)

/-- A re.sub pass that keeps a leading slice of its input, inserts the mask
    and continues after the match cannot introduce an occurrence of a
    non-empty mask-character-free string. -/
theorem scanSub_infix_free (try1 : List Char → Option (Nat × Nat))
    (hdec : ∀ s g d, try1 s = some (g, d) → 0 < d ∧ 0 < s.length)
    (sec : List Char) (hsec : sec ≠ []) (hstar : '*' ∉ sec) :
    ∀ s, ¬ sec <:+: s → ¬ sec <:+: scanSub try1 hdec s := by
  suffices h : ∀ n (s : List Char), s.length ≤ n → ¬ sec <:+: s →
      ¬ sec <:+: scanSub try1 hdec s by
    exact fun s => h s.length s le_rfl
  intro n
  induction n with
  | zero =>
    intro s hs hfree
    have : s = [] := List.eq_nil_of_length_eq_zero (Nat.le_zero.mp hs)
    subst this
    rwa [scanSub_nil]
  | succ n ih =>
    intro s hs hfree
    rcases s with _ | ⟨c, rest⟩
    · rwa [scanSub_nil]
    rcases hm : try1 (c :: rest) with _ | ⟨g, d⟩
    · rw [scanSub_none try1 hdec c rest hm]
      intro hinf
      rcases List.infix_cons_iff.mp hinf with h1 | h1
      · rcases sec with _ | ⟨s0, sec'⟩
        · exact hsec rfl
        · obtain ⟨he, h2⟩ := List.cons_prefix_cons.mp h1
          have hlen : rest.length ≤ n := by
            simp only [List.length_cons] at hs; omega
          have h3 : sec' <+: rest :=
            scanSub_prefix_transfer try1 hdec rest sec'
              (fun hx => hstar (List.mem_cons_of_mem s0 hx)) h2
          exact hfree ((List.cons_prefix_cons.mpr ⟨he, h3⟩).isInfix)
      · have hlen : rest.length ≤ n := by
          simp only [List.length_cons] at hs; omega
        exact ih rest hlen
          (fun hx => hfree (hx.trans (List.tail_suffix (c :: rest)).isInfix)) h1
    · rw [scanSub_some try1 hdec c rest g d hm]
      intro hinf
      obtain ⟨hd0, hl0⟩ := hdec _ _ _ hm
      have hlen : ((c :: rest).drop d).length ≤ n := by
        simp only [List.length_drop, List.length_cons]
        simp only [List.length_cons] at hs
        omega
      have hfree' : ¬ sec <:+: (c :: rest).drop d := fun hx =>
        hfree (hx.trans (List.drop_suffix d (c :: rest)).isInfix)
      have hrec : ¬ sec <:+: scanSub try1 hdec ((c :: rest).drop d) :=
        ih _ hlen hfree'
      rw [List.append_assoc] at hinf
      rcases infix_append_split hinf with h1 | h1 | ⟨s1, s2, hsplit, hn1, hn2, hsuf, hpre⟩
      · exact hfree (h1.trans (List.take_prefix g (c :: rest)).isInfix)
      · rcases infix_append_split h1 with h2 | h2 | ⟨t1, t2, htsplit, htn1, htn2, htsuf, htpre⟩
        · apply hstar
          rcases sec with _ | ⟨s0, sec'⟩
          · exact absurd rfl hsec
          · have h3 : s0 ∈ ['*', '*', '*'] := h2.subset (List.mem_cons_self s0 sec')
            have hs0 : s0 = '*' := by simpa using h3
            rw [hs0]
            exact List.mem_cons_self _ _
        · exact hrec h2
        · apply hstar
          rcases t1 with _ | ⟨u0, u'⟩
          · exact absurd rfl htn1
          · have h3 : u0 ∈ ['*', '*', '*'] := htsuf.isInfix.subset (List.mem_cons_self u0 u')
            have hu0 : u0 = '*' := by simpa using h3
            rw [htsplit, hu0] at hstar ⊢
            exact List.mem_append_left _ (List.mem_cons_self _ _)
      · apply hstar
        rcases s2 with _ | ⟨v0, v'⟩
        · exact absurd rfl hn2
        · have hv0 : v0 = '*' := (List.cons_prefix_cons.mp hpre).1
          rw [hsplit, hv0]
          exact List.mem_append_right _ (List.mem_cons_self _ _)

/-- The single-quote character, written via its code point. -/
def squote : Char := Char.ofNat 39

/-- Character class [=\s] of the first password-masking regex. -/
def sepChar1 (c : Char) : Bool := c == '=' || pyIsSpace c

/-- Character class [^\s]. -/
def tokenChar1 (c : Char) : Bool := !(pyIsSpace c)

/-- Largest index j ≥ 1 in r holding '='; used for the backtracking case in
    which the separator run reaches the end of the string and the regex
    hands its last '=' to the token. -/
def lastEqIdx (r : List Char) : Option Nat :=
  match r.reverse.findIdx? (fun c => c == '=') with
  | some i => if r.length - 1 - i ≥ 1 then some (r.length - 1 - i) else none
  | none => none

/-- Leftmost-position matcher of re.sub(r'(--password[=\s]+)[^\s]+', ...)
    at one position: returns (group length, consumed length). -/
def tryMatch1 (s : List Char) : Option (Nat × Nat) :=
  if ("--password".toList).isPrefixOf s then
    let t := s.drop 10
    let r := t.takeWhile sepChar1
    if r.isEmpty then none
    else
      match t.drop r.length with
      | [] =>
        match lastEqIdx r with
        | some j => some (10 + j, 10 + j + ((r.drop j).takeWhile tokenChar1).length)
        | none => none
      | _ :: _ =>
        some (10 + r.length,
          10 + r.length + ((t.drop r.length).takeWhile tokenChar1).length)
  else none

theorem tryMatch1_bounds : ∀ s g d, tryMatch1 s = some (g, d) → 0 < d ∧ 0 < s.length := by
  intro s g d h
  unfold tryMatch1 at h
  by_cases hp : ("--password".toList).isPrefixOf s = true
  · rw [if_pos hp] at h
    have hlen : 10 ≤ s.length := by
      have := (List.isPrefixOf_iff_prefix.mp hp).length_le
      simpa using this
    dsimp only at h
    split at h
    · exact absurd h (by simp)
    · split at h
      · split at h
        · cases h
          exact ⟨by omega, by omega⟩
        · exact absurd h (by simp)
      · cases h
        exact ⟨by omega, by omega⟩
  · rw [if_neg hp] at h
    exact absurd h (by simp)

/-- Character class [^"\'>\s] of the second password-masking regex. -/
def tokenChar2 (c : Char) : Bool :=
  !(c == '"' || c == squote || c == '>' || pyIsSpace c)

/-- Leftmost-position matcher of re.sub applied to the pattern
    password[=:] with an optional quote and a nonempty token: returns
    (group length, consumed length).  An optional quote whose token is
    empty cannot backtrack into a match because the quote itself is
    excluded from the token class. -/
def tryMatch2 (s : List Char) : Option (Nat × Nat) :=
  if ("password".toList).isPrefixOf s then
    match s.drop 8 with
    | sep :: rest1 =>
      if sep == '=' || sep == ':' then
        match rest1 with
        | q :: rest2 =>
          if q == '"' || q == squote then
            if (rest2.takeWhile tokenChar2).isEmpty then none
            else some (10, 10 + (rest2.takeWhile tokenChar2).length)
          else
            if ((q :: rest2).takeWhile tokenChar2).isEmpty then none
            else some (9, 9 + ((q :: rest2).takeWhile tokenChar2).length)
        | [] => none
      else none
    | [] => none
  else none

theorem tryMatch2_bounds : ∀ s g d, tryMatch2 s = some (g, d) → 0 < d ∧ 0 < s.length := by
  intro s g d h
  unfold tryMatch2 at h
  by_cases hp : ("password".toList).isPrefixOf s = true
  · rw [if_pos hp] at h
    have hlen : 8 ≤ s.length := by
      have := (List.isPrefixOf_iff_prefix.mp hp).length_le
      simpa using this
    repeat' split at h
    all_goals
      first
        | exact Option.noConfusion h
        | (cases h
           exact ⟨by omega, by omega⟩)
  · rw [if_neg hp] at h
    exact Option.noConfusion h

/-- First re.sub pass of mask_secrets (app.py line 969). -/
def reSub1 (s : List Char) : List Char := scanSub tryMatch1 tryMatch1_bounds s

/-- Second re.sub pass of mask_secrets (app.py line 970). -/
def reSub2 (s : List Char) : List Char := scanSub tryMatch2 tryMatch2_bounds s

/-- The replacement loop over the dynamic input fields inside mask_secrets
    (app.py lines 964-966): sequential dict-order replacement, skipping
    falsy values. -/
def maskInputs : List (String × String) → List Char → List Char
  | [], s => s
  | (_, val) :: rest, s =>
    maskInputs rest
      (if val.toList = [] then s else replaceAll s val.toList ("***".toList))

/-- mask_secrets (app.py lines 956-971): replace the legacy api key, then
    each truthy input value, then apply the two password-pattern re.subs. -/
def mask_secrets (api_key : Option String) (input_data : List (String × String))
    (cmd : List Char) : List Char :=
  reSub2 (reSub1 (maskInputs input_data
    (match api_key with
     | some ak => if ak.toList = [] then cmd else replaceAll cmd ak.toList ("***".toList)
     | none => cmd)))

theorem star_disjoint {sec : List Char} (hstar : '*' ∉ sec) :
    ∀ c ∈ "***".toList, c ∉ sec := by
  intro c hc
  have h3 : c ∈ ['*', '*', '*'] := hc
  have hce : c = '*' := by simpa using h3
  rw [hce]
  exact hstar

theorem maskInputs_preserves (sec : List Char) (hsec : sec ≠ []) (hstar : '*' ∉ sec) :
    ∀ (l : List (String × String)) (s : List Char),
      ¬ sec <:+: s → ¬ sec <:+: maskInputs l s := by
  intro l
  induction l with
  | nil => intro s h; exact h
  | cons p rest ih =>
    obtain ⟨fid, val⟩ := p
    intro s h
    show ¬ sec <:+:
      maskInputs rest (if val.toList = [] then s else replaceAll s val.toList ("***".toList))
    apply ih
    by_cases hv : val.toList = []
    · rw [if_pos hv]; exact h
    · rw [if_neg hv]
      exact replaceAll_infix_free val.toList ("***".toList) sec (by decide) hsec
        (star_disjoint hstar) s h

theorem maskInputs_hits (sec : List Char) (hsec : sec ≠ []) (hstar : '*' ∉ sec) :
    ∀ (l : List (String × String)) (fid val : String),
      (fid, val) ∈ l → val.toList = sec → ∀ s, ¬ sec <:+: maskInputs l s := by
  intro l
  induction l with
  | nil => intro fid val hmem; exact absurd hmem (List.not_mem_nil _)
  | cons p rest ih =>
    obtain ⟨f, v⟩ := p
    intro fid val hmem hval s
    rcases List.mem_cons.mp hmem with heq | hmem'
    · obtain ⟨hf, hv⟩ := Prod.mk.injEq .. ▸ heq
      show ¬ sec <:+:
        maskInputs rest (if v.toList = [] then s else replaceAll s v.toList ("***".toList))
      have hvs : v.toList = sec := by rw [← hv]; exact hval
      rw [if_neg (by rw [hvs]; exact hsec)]
      apply maskInputs_preserves sec hsec hstar rest
      rw [hvs]
      exact replaceAll_self_free ("***".toList) sec (by decide) hsec
        (star_disjoint hstar) s
    · show ¬ sec <:+:
        maskInputs rest (if v.toList = [] then s else replaceAll s v.toList ("***".toList))
      exact ih fid val hmem' hval _

/-- No secret that is non-empty, free of the mask character, and equal to
    the truthy api key or to one of the input-data values survives
    mask_secrets: the masked string contains no occurrence of it. -/
theorem mask_secrets_free (api_key : Option String) (input_data : List (String × String))
    (cmd : List Char) (sec : List Char) (hsec : sec ≠ []) (hstar : '*' ∉ sec)
    (hsrc : (∃ ak, api_key = some ak ∧ ak.toList = sec) ∨
            (∃ fid val, (fid, val) ∈ input_data ∧ val.toList = sec)) :
    ¬ sec <:+: mask_secrets api_key input_data cmd := by
  show ¬ sec <:+: scanSub tryMatch2 tryMatch2_bounds
    (scanSub tryMatch1 tryMatch1_bounds (maskInputs input_data _))
  apply scanSub_infix_free tryMatch2 tryMatch2_bounds sec hsec hstar
  apply scanSub_infix_free tryMatch1 tryMatch1_bounds sec hsec hstar
  rcases hsrc with ⟨ak, hak, hsec'⟩ | ⟨fid, val, hmem, hval⟩
  · subst hak
    dsimp only
    rw [if_neg (by rw [hsec']; exact hsec)]
    apply maskInputs_preserves sec hsec hstar
    rw [hsec']
    exact replaceAll_self_free ("***".toList) sec (by decide) hsec
      (star_disjoint hstar) cmd
  · exact maskInputs_hits sec hsec hstar input_data fid val hmem hval _

/-- One dynamic input field descriptor of the configuration. -/
structure InputField where
  id : Option String
  env_var : Option String
deriving DecidableEq, Repr

/-- One deployment-type entry of the configuration, with the keys the
    /deploy handler reads (absent keys are none / empty). -/
structure DeployConfigEntry where
  command : Option String := none
  working_dir : Option String := none
  env_var : Option String := none
  pre_commands : List String := []
  post_commands : List String := []
  input_fields : List InputField := []
  default_version : String := ""
deriving Repr

/-- Request body of POST /deploy. -/
structure DeployRequest where
  apiKey : Option String
  inputData : List (String × String)
  version : String
  dryRun : Bool

/-- Python truthiness of an optional string. -/
def truthyS (o : Option String) : Bool :=
  match o with
  | none => false
  | some s => !(s == "")

/-- The would_execute payload of a dry-run response. -/
structure DryRunInfo where
  deployment_type : String
  version : String
  working_directory : String
  environment : List (String × String)
  pre_commands : List String
  main_command : String
  post_commands : List String
deriving Repr

/-- Response of POST /deploy: an error with HTTP status, the dry-run
    payload, or the execution-path outcome.  Free-text parts of the error
    strings (formatted exception text and captured output) are abstracted
    to fixed labels plus the oracle strings. -/
inductive DeployResponse where
  | err : String → Nat → DeployResponse
  | dry : DryRunInfo → DeployResponse
  | done : String → String → Nat → DeployResponse
deriving Repr

/-- Outcome of one execute_command call (app.py lines 347-399 in capture
    mode): a completed Result, a TimeoutExpired, or another exception. -/
inductive ExecOutcome where
  | res : Int → String → String → ExecOutcome
  | timedOut : ExecOutcome
  | exc : String → ExecOutcome

/-- First configuration key not starting with an underscore. -/
def firstNonMeta (config : List (String × DeployConfigEntry)) : Option String :=
  ((config.filter (fun p => !(("_".toList).isPrefixOf p.1.toList))).head?).map
    (fun p => p.1)

/-- The environment block of the dry-run response (app.py lines 973-982):
    secret-bearing entries display a fixed mask; VERSION displays the
    resolved version verbatim. -/
def env_display (api_key : Option String) (env_var : String)
    (input_fields : List InputField) (input_data : List (String × String))
    (versionVal : String) : List (String × String) :=
  (if truthyS api_key ∧ env_var ≠ "" then [(env_var, "***hidden***")] else []) ++
  (input_fields.filterMap (fun f =>
    match f.id, f.env_var with
    | some fid, some fev =>
      if fid ≠ "" ∧ fev ≠ "" ∧ (List.lookup fid input_data).isSome then
        some (fev, "***hidden***")
      else none
    | _, _ => none)) ++
  [("VERSION", versionVal)]

/-- Sequential pre-command execution of the non-dry /deploy path (app.py
    lines 1002-1013), oracle-indexed by execution order: returns the
    commands spawned and an early error response if one failed. -/
def deploy_exec_loop (exec : Nat → ExecOutcome) :
    List String → Nat → List String × Option DeployResponse
  | [], _ => ([], none)
  | c :: rest, k =>
    match exec k with
    | .res rc _ errS =>
      if rc ≠ 0 then ([c], some (.err ("Pre-command failed: " ++ errS) 500))
      else
        (c :: (deploy_exec_loop exec rest (k + 1)).1,
         (deploy_exec_loop exec rest (k + 1)).2)
    | .timedOut => ([c], some (.err "Deployment timed out after 10 minutes" 500))
    | .exc m => ([c], some (.err ("Deployment error: " ++ m) 500))

/-- POST /deploy handler (app.py lines 897-1038): validation, deployment
    type resolution, then either the dry-run rendering (no process spawned)
    or the sequential execution path.  The second component lists the
    commands actually handed to execute_command.  A None main command on
    the dry path raises inside mask_secrets and surfaces as the generic
    500 handler (exception text abstracted). -/
def deploy (req : DeployRequest) (envDryRun : Bool) (envDeployType : Option String)
    (config : List (String × DeployConfigEntry)) (exec : Nat → ExecOutcome) :
    DeployResponse × List String :=
  if ¬ truthyS req.apiKey ∧ req.inputData = [] then
    (.err "API key or input data is required" 400, [])
  else
    match (if truthyS envDeployType then envDeployType else firstNonMeta config) with
    | none => (.err "No deployment configured" 500, [])
    | some dt =>
      match List.lookup dt config with
      | none => (.err "No deployment configured" 500, [])
      | some dcfg =>
        if req.dryRun || envDryRun then
          match dcfg.command with
          | none => (.err "Deployment error" 500, [])
          | some cmdStr =>
            (.dry {
              deployment_type := dt,
              version := if req.version ≠ "" then req.version else dcfg.default_version,
              working_directory := dcfg.working_dir.getD "/app",
              environment := env_display req.apiKey (dcfg.env_var.getD "NGC_API_KEY")
                dcfg.input_fields req.inputData
                (if req.version ≠ "" then req.version else dcfg.default_version),
              pre_commands := dcfg.pre_commands.map
                (fun c => (mask_secrets req.apiKey req.inputData c.toList).asString),
              main_command := (mask_secrets req.apiKey req.inputData cmdStr.toList).asString,
              post_commands := dcfg.post_commands.map
                (fun c => (mask_secrets req.apiKey req.inputData c.toList).asString) }, [])
        else
          match (deploy_exec_loop exec dcfg.pre_commands 0).2 with
          | some resp => (resp, (deploy_exec_loop exec dcfg.pre_commands 0).1)
          | none =>
            match dcfg.command with
            | none => (.err "Deployment error" 500, (deploy_exec_loop exec dcfg.pre_commands 0).1)
            | some mc =>
              match exec dcfg.pre_commands.length with
              | .res rc out _ =>
                if rc = 0 then
                  (.done "deployment initiated successfully" out 200,
                   (deploy_exec_loop exec dcfg.pre_commands 0).1 ++ [mc])
                else
                  (.err "Deployment failed" 500,
                   (deploy_exec_loop exec dcfg.pre_commands 0).1 ++ [mc])
              | .timedOut =>
                (.err "Deployment timed out after 10 minutes" 500,
                 (deploy_exec_loop exec dcfg.pre_commands 0).1 ++ [mc])
              | .exc m =>
                (.err ("Deployment error: " ++ m) 500,
                 (deploy_exec_loop exec dcfg.pre_commands 0).1 ++ [mc])

/-- Fallback configuration returned when the config file cannot be read
    (app.py lines 121-132). -/
def fallbackConfig : List (String × DeployConfigEntry) :=
  [("docker-compose",
    { command := some "docker-compose up -d", working_dir := some "/app",
      env_var := some "NGC_API_KEY" }),
   ("helm",
    { command := some "helm install myrelease ./chart", working_dir := some "/app",
      env_var := some "NGC_API_KEY" })]

/-- The secret values a request supplies: the truthy api key and every
    non-empty input-data value. -/
def secretsOf (api_key : Option String) (input_data : List (String × String)) :
    List String :=
  (match api_key with
   | some ak => if ak ≠ "" then [ak] else []
   | none => []) ++
  input_data.filterMap (fun p => if p.2 ≠ "" then some p.2 else none)

/-- Concrete request for the C5 counterexample: the supplied api key also
    passed as the requested version. -/
def reqC5 : DeployRequest :=
  { apiKey := some "s3cret-key", inputData := [], version := "s3cret-key", dryRun := true }

/-- Expected dry-run payload of the C5 counterexample. -/
def drC5 : DryRunInfo :=
  { deployment_type := "docker-compose", version := "s3cret-key",
    working_directory := "/app",
    environment := env_display (some "s3cret-key") "NGC_API_KEY" [] [] "s3cret-key",
    pre_commands := [],
    main_command :=
      (mask_secrets (some "s3cret-key") [] ("docker-compose up -d".toList)).asString,
    post_commands := [] }

/-- C5 counterexample: a dry-run request whose version equals the api key
    returns a response in which the secret value appears verbatim, in the
    VERSION environment entry and in the version field. -/
theorem C5_counterexample :
    ∃ dr, (deploy reqC5 false none fallbackConfig
        (fun _ => ExecOutcome.res 0 "" "")).1 = DeployResponse.dry dr ∧
      ("VERSION", "s3cret-key") ∈ dr.environment ∧
      dr.version = "s3cret-key" := by
  refine ⟨drC5, ?_, ?_, ?_⟩
  · rfl
  · decide
  · rfl

theorem secretsOf_src (api_key : Option String) (input_data : List (String × String))
    (sec : String) (h : sec ∈ secretsOf api_key input_data) :
    (∃ ak, api_key = some ak ∧ ak.toList = sec.toList) ∨
    (∃ fid val, (fid, val) ∈ input_data ∧ val.toList = sec.toList) := by
  unfold secretsOf at h
  rcases List.mem_append.mp h with h1 | h1
  · left
    rcases api_key with _ | ak
    · simp at h1
    · dsimp only at h1
      by_cases hk : ak ≠ ""
      · rw [if_pos hk] at h1
        have : sec = ak := by simpa using h1
        exact ⟨ak, rfl, by rw [this]⟩
      · rw [if_neg hk] at h1
        simp at h1
  · right
    obtain ⟨p, hp, hpe⟩ := List.mem_filterMap.mp h1
    by_cases hv : p.2 ≠ ""
    · rw [if_pos hv] at hpe
      refine ⟨p.1, p.2, by simpa using hp, ?_⟩
      rw [Option.some.inj hpe]
    · rw [if_neg hv] at hpe
      exact absurd hpe (by simp)

theorem env_display_masked (api_key : Option String) (env_var : String)
    (input_fields : List InputField) (input_data : List (String × String))
    (versionVal : String) :
    ∀ kv ∈ env_display api_key env_var input_fields input_data versionVal,
      kv.1 ≠ "VERSION" → kv.2 = "***hidden***" := by
  intro kv hkv hne
  unfold env_display at hkv
  rcases List.mem_append.mp hkv with h1 | h1
  · rcases List.mem_append.mp h1 with h2 | h2
    · split at h2
      · have hkv2 : kv = (env_var, "***hidden***") := by simpa using h2
        rw [hkv2]
      · simp at h2
    · obtain ⟨f, hf, hfe⟩ := List.mem_filterMap.mp h2
      repeat' split at hfe
      all_goals
        first
          | exact Option.noConfusion hfe
          | (cases Option.some.inj hfe
             rfl)
  · have hkv2 : kv = ("VERSION", versionVal) := by simpa using h1
    rw [hkv2] at hne
    exact absurd rfl hne

/-- C5 (amended): a dry-run request spawns no process; in the rendered
    pre/main/post commands no supplied secret that is non-empty and free of
    the mask character occurs verbatim (every occurrence was masked), and
    every environment entry other than VERSION is the fixed mask token.
    The VERSION entry and the config-echoing metadata fields are rendered
    unmasked, which is what the counterexample exploits. -/
theorem C5_dry_run_masking (req : DeployRequest) (envDryRun : Bool)
    (envDeployType : Option String) (config : List (String × DeployConfigEntry))
    (exec : Nat → ExecOutcome)
    (hdry : req.dryRun = true)
    (hsec : ∀ sec ∈ secretsOf req.apiKey req.inputData, sec ≠ "" ∧ '*' ∉ sec.toList) :
    (deploy req envDryRun envDeployType config exec).2 = [] ∧
    (∀ dr, (deploy req envDryRun envDeployType config exec).1 = DeployResponse.dry dr →
      (∀ sec ∈ secretsOf req.apiKey req.inputData,
        (∀ cmd ∈ dr.pre_commands, ¬ sec.toList <:+: cmd.toList) ∧
        ¬ sec.toList <:+: dr.main_command.toList ∧
        (∀ cmd ∈ dr.post_commands, ¬ sec.toList <:+: cmd.toList)) ∧
      (∀ kv ∈ dr.environment, kv.1 ≠ "VERSION" → kv.2 = "***hidden***")) := by
  have hmask : ∀ sec ∈ secretsOf req.apiKey req.inputData, ∀ c : String,
      ¬ sec.toList <:+:
        ((mask_secrets req.apiKey req.inputData c.toList).asString).toList := by
    intro sec hs c
    obtain ⟨hne, hstar⟩ := hsec sec hs
    have hne' : sec.toList ≠ [] := fun hcon => hne (String.ext hcon)
    have hlist : ((mask_secrets req.apiKey req.inputData c.toList).asString).toList
        = mask_secrets req.apiKey req.inputData c.toList := rfl
    rw [hlist]
    exact mask_secrets_free req.apiKey req.inputData c.toList sec.toList hne' hstar
      (secretsOf_src req.apiKey req.inputData sec hs)
  unfold deploy
  rw [hdry, Bool.true_or]
  split
  · exact ⟨rfl, fun dr hdr => DeployResponse.noConfusion hdr⟩
  · split
    · exact ⟨rfl, fun dr hdr => DeployResponse.noConfusion hdr⟩
    · split
      · exact ⟨rfl, fun dr hdr => DeployResponse.noConfusion hdr⟩
      · rw [if_pos rfl]
        split
        · exact ⟨rfl, fun dr hdr => DeployResponse.noConfusion hdr⟩
        · refine ⟨rfl, ?_⟩
          intro dr hdr
          have hdr' := (DeployResponse.dry.inj hdr).symm
          subst hdr'
          refine ⟨?_, env_display_masked _ _ _ _ _⟩
          intro sec hs
          refine ⟨?_, hmask sec hs _, ?_⟩
          · intro cmd hcmd
            obtain ⟨c, _, hc⟩ := List.mem_map.mp hcmd
            rw [← hc]
            exact hmask sec hs c
          · intro cmd hcmd
            obtain ⟨c, _, hc⟩ := List.mem_map.mp hcmd
            rw [← hc]
            exact hmask sec hs c

/-- Concrete request for the C5 witness. -/
def reqC5w : DeployRequest :=
  { apiKey := some "topsecret", inputData := [("key1", "val-secret")],
    version := "1.0", dryRun := true }

/-- Witness for C5 at a concrete dry-run request with both kinds of
    secret supplied. -/
theorem C5_witness :
    (deploy reqC5w false none fallbackConfig (fun _ => ExecOutcome.res 0 "" "")).2 = [] ∧
    (∀ dr, (deploy reqC5w false none fallbackConfig
        (fun _ => ExecOutcome.res 0 "" "")).1 = DeployResponse.dry dr →
      (∀ sec ∈ secretsOf reqC5w.apiKey reqC5w.inputData,
        (∀ cmd ∈ dr.pre_commands, ¬ sec.toList <:+: cmd.toList) ∧
        ¬ sec.toList <:+: dr.main_command.toList ∧
        (∀ cmd ∈ dr.post_commands, ¬ sec.toList <:+: cmd.toList)) ∧
      (∀ kv ∈ dr.environment, kv.1 ≠ "VERSION" → kv.2 = "***hidden***")) :=
  C5_dry_run_masking reqC5w false none fallbackConfig
    (fun _ => ExecOutcome.res 0 "" "") rfl (by decide)
